import Mathlib

/-!
Shallow embedding of the spellbot matchmaking core (src/spellbot/__init__.py and
src/spellbot/data.py): the session store (Server/User/Game rows), the reaction-driven
membership reconciler (`SpellBot.on_raw_reaction_add`), the lifecycle commands
(`SpellBot.lfg`, `SpellBot.leave`, `SpellBot.process_invite_response`) and the
expiration sweeper (`SpellBot.cleanup_expired_games`, `Game.expired`).

Modelling conventions:
* Times (`datetime`) are abstract `Int` minutes; `timedelta(minutes=server.expire)`
  becomes `+ server.expire`.
* Discord identifiers are `Nat`.
* The SQLAlchemy session is modelled by an `Exec` record holding the in-session
  store `cur`, the last committed store `committed` and the list of every commit
  snapshot; `session.commit()` copies `cur` into `committed`.  A handler that ends
  (or raises) without committing discards its session-local changes, which is what
  closing the session does in the source.
* Outbound discord calls route through the `safe_*` wrappers in the source swallow
  all errors; they are modelled as emitted `Act`s that never fail.  Raw calls
  (`user.send`, `channel.send`, `post.add_reaction`) can raise in the source, so the
  model consults per-operation oracles and raises `PyError.discordError` on failure.
* Python exceptions (`IndexError`/`ValueError` in `lfg`, the `NameError` raised by
  `Game.to_embed` for started games, `AttributeError` on a `None` game) are the
  `PyError` codes of the `Exec.err` field.
-/

inductive PyError where
  | nameError
  | indexError
  | valueError
  | attributeError
  | discordError
deriving DecidableEq, Repr

inductive Emoji where
  | plus
  | minus
deriving DecidableEq, Repr

/-- Outbound effects handed to the messaging gateway.  `dm`/`chanSend` carry the
string-table key passed to `s(...)` in the source. -/
inductive Act where
  | dm (toX : Nat) (key : String)
  | dmEmbed (toX : Nat) (title : String)
  | chanSend (key : String)
  | postGame (msgX : Nat)
  | editMessage (msgX : Nat) (title : String)
  | clearReactions (msgX : Nat)
  | removeReaction (msgX : Nat) (emoji : Emoji) (userX : Nat)
  | addReaction (msgX : Nat) (emoji : Emoji)
  | attemptDeleteMessage (gameId : Nat)
  | attemptRemovePlus (gameId : Nat) (userX : Nat)
deriving DecidableEq, Repr

/-- Row of the `users` table (data.py `User`). -/
structure User where
  xid : Nat
  game_id : Option Nat
  invited : Bool
  invite_confirmed : Bool
deriving DecidableEq, Repr

/-- Row of the `games` table (data.py `Game`).  `size` is a Python int. -/
structure Game where
  id : Nat
  created_at : Int
  updated_at : Option Int
  expires_at : Option Int
  size : Int
  guild_xid : Nat
  channel_xid : Option Nat
  title : String
  status : String
  message_xid : Option Nat
deriving DecidableEq, Repr

/-- Row of the `servers` table (data.py `Server`).  `pfx` is the command prefix
column; `expire` is the expiry window in minutes (server default 30). -/
structure Server where
  guild_xid : Nat
  pfx : String
  expire : Int
  channels : List String
deriving DecidableEq, Repr

/-- The relational store.  `nextGameId` models the autoincrement id sequence of
the `games` table. -/
structure Store where
  servers : List Server
  users : List User
  games : List Game
  nextGameId : Nat
deriving DecidableEq, Repr

def initStore : Store := { servers := [], users := [], games := [], nextGameId := 0 }

def findServer (s : Store) (g : Nat) : Option Server :=
  s.servers.find? (fun sv => sv.guild_xid = g)

def findUser (s : Store) (x : Nat) : Option User :=
  s.users.find? (fun u => u.xid = x)

def findGame (s : Store) (gid : Nat) : Option Game :=
  s.games.find? (fun g => g.id = gid)

/-- `session.query(Game).filter(Game.message_xid == message.id).one_or_none()`. -/
def findGameByMessage (s : Store) (mx : Nat) : Option Game :=
  s.games.find? (fun g => g.message_xid = some mx)

def newUser (x : Nat) : User :=
  { xid := x, game_id := none, invited := false, invite_confirmed := false }

def newServer (g : Nat) : Server :=
  { guild_xid := g, pfx := "!", expire := 30, channels := [] }

/-- `SpellBot.ensure_user_exists`: adds a fresh row to the session when absent. -/
def ensureUserExists (s : Store) (x : Nat) : Store :=
  match findUser s x with
  | some _ => s
  | none => { s with users := s.users ++ [newUser x] }

/-- `SpellBot.ensure_server_exists`. -/
def ensureServerExists (s : Store) (g : Nat) : Store :=
  match findServer s g with
  | some _ => s
  | none => { s with servers := s.servers ++ [newServer g] }

def getUser (s : Store) (x : Nat) : User := (findUser s x).getD (newUser x)

def getServer (s : Store) (g : Nat) : Server := (findServer s g).getD (newServer g)

/-- `Server.bot_allowed_in`: empty allow-list means every channel. -/
def botAllowedIn (sv : Server) (chanName : String) : Bool :=
  sv.channels.isEmpty || sv.channels.any (fun c => c = chanName)

/-- `game.users`: the users whose game reference points at this game. -/
def membersOf (s : Store) (gid : Nat) : List User :=
  s.users.filter (fun u => u.game_id = some gid)

def memberCount (s : Store) (gid : Nat) : Nat :=
  s.users.countP (fun u => u.game_id = some gid)

/-- `User.waiting`: `self.game and self.game.status in ["pending", "ready"]`.
A dangling or absent game reference resolves to `None` in SQLAlchemy. -/
def userWaiting (s : Store) (u : User) : Bool :=
  match u.game_id.bind (findGame s) with
  | some g => g.status = "pending" || g.status = "ready"
  | none => false

def updateUser (s : Store) (x : Nat) (f : User → User) : Store :=
  { s with users := s.users.map (fun u => if u.xid = x then f u else u) }

def setUserGame (s : Store) (x : Nat) (g : Option Nat) : Store :=
  updateUser s x (fun u => { u with game_id := g })

def updateGame (s : Store) (gid : Nat) (f : Game → Game) : Store :=
  { s with games := s.games.map (fun g => if g.id = gid then f g else g) }

/-- `session.delete(game)`: the game row goes away and (via the ORM nulling the
child foreign keys of the `users` relationship) every member reference clears. -/
def deleteGame (s : Store) (gid : Nat) : Store :=
  { s with
    games := s.games.filter (fun g => ¬ g.id = gid),
    users := s.users.map (fun u => if u.game_id = some gid then { u with game_id := none } else u) }

/-- The embed rendered by `Game.to_embed`. -/
structure EmbedData where
  title : String
  description : String
  players : Option String
deriving DecidableEq, Repr

def playerTags (users : List User) : String :=
  String.intercalate ", "
    ((users.map (fun u => "<@" ++ toString u.xid ++ ">")).mergeSort
      (fun a b => compare a b ≠ Ordering.gt))

/-- `Game.to_embed` (data.py lines 135-149).  In the `started` branch the source
builds the f-string `f"{self.title} **Your game is ready!**"` WITHOUT assigning it
to the local `title`; the subsequent `discord.Embed(title=title)` then raises
`UnboundLocalError` (a `NameError`), because `title` is a local of the function
(it is assigned in the `else` branch).  The model surfaces that as `.error`. -/
def toEmbed (g : Game) (users : List User) : Except PyError EmbedData :=
  if g.status = "started" then
    .error .nameError
  else
    let remaining : Int := g.size - users.length
    let plural := if remaining > 1 then "s" else ""
    let title := "**Waiting for " ++ toString remaining ++ " more player" ++ plural ++ " to join...**"
    .ok { title := title,
          description := "To join/leave this game, react with ➕/➖.",
          players := if users.isEmpty then none else some (playerTags users) }

/-- `Game.expired` (data.py lines 109-115): all games with
`utcnow() >= expires_at` whose status is not `"ready"`.  Note the filter says
`"ready"`, not `"started"`: no code path ever stores status `"ready"`, so started
games are selected by this query as soon as their deadline passes. -/
def expiredGames (s : Store) (now : Int) : List Game :=
  s.games.filter (fun g =>
    (match g.expires_at with
     | some t => decide (now ≥ t)
     | none => false) && decide (g.status ≠ "ready"))

def isPyDigit (c : Char) : Bool := '0' ≤ c && c ≤ '9'

def isPySpace (c : Char) : Bool :=
  c == ' ' || c == '\t' || c == '\n' || c == '\r' || c == '\x0b' || c == '\x0c'

def digitsVal (ds : List Char) : Nat :=
  ds.foldl (fun n c => n * 10 + (c.toNat - '0'.toNat)) 0

/-- Digit tail of a Python decimal literal: digits with single underscores
strictly between digits. -/
def pyDigitsRest : List Char → Option (List Char)
  | [] => some []
  | '_' :: c :: rest =>
      if isPyDigit c then (pyDigitsRest rest).map (fun ds => c :: ds) else none
  | c :: rest =>
      if isPyDigit c then (pyDigitsRest rest).map (fun ds => c :: ds) else none

def pyDigits : List Char → Option (List Char)
  | [] => none
  | c :: rest =>
      if isPyDigit c then (pyDigitsRest rest).map (fun ds => c :: ds) else none

def pyIntCore : List Char → Option Int
  | '+' :: rest => (pyDigits rest).map (fun ds => (digitsVal ds : Int))
  | '-' :: rest => (pyDigits rest).map (fun ds => -(digitsVal ds : Int))
  | l => (pyDigits l).map (fun ds => (digitsVal ds : Int))

def stripWs (l : List Char) : List Char :=
  ((l.dropWhile isPySpace).reverse.dropWhile isPySpace).reverse

/-- Python `int(str)`: optional surrounding whitespace, optional sign, decimal
digits with embedded underscores; raises `ValueError` otherwise. -/
def pyInt (s : String) : Except PyError Int :=
  match pyIntCore (stripWs s.toList) with
  | some n => .ok n
  | none => .error .valueError

def lowerStr (s : String) : String := String.mk (s.data.map Char.toLower)

/-- One handler run: session view `cur`, last committed snapshot `committed`,
every commit snapshot in order, emitted gateway actions, and a raised Python
exception if any. -/
structure Exec where
  cur : Store
  committed : Store
  commits : List Store
  actions : List Act
  err : Option PyError
deriving Repr

def Exec.start (s : Store) : Exec :=
  { cur := s, committed := s, commits := [], actions := [], err := none }

def Exec.commit (e : Exec) : Exec :=
  { e with committed := e.cur, commits := e.commits ++ [e.cur] }

def Exec.act (e : Exec) (a : Act) : Exec :=
  { e with actions := e.actions ++ [a] }

def Exec.fail (e : Exec) (p : PyError) : Exec :=
  { e with err := some p }

def Exec.upd (e : Exec) (f : Store → Store) : Exec :=
  { e with cur := f e.cur }

/-- The fill/start evaluation after a reaction join
(`on_raw_reaction_add` lines 453-471): when the member count equals `size`,
members that can no longer be fetched are dropped; if every member was found the
status moves to `"started"`, each member is direct-messaged the embed, the post
is edited and its reactions cleared.  `Game.to_embed` raises for started games,
which aborts before any DM. -/
def fetchLoop (fetchOk : Nat → Bool) (ms : List Nat) (s : Store) : Store × List Nat :=
  ms.foldl (fun (acc : Store × List Nat) x =>
    if fetchOk x then (acc.1, acc.2 ++ [x])
    else (setUserGame acc.1 x none, acc.2)) (s, [])

def dmAll (dmOk : Nat → Bool) (title : String) (found : List Nat) (e : Exec) : Exec :=
  found.foldl (fun e x =>
    if e.err.isSome then e
    else if dmOk x then e.act (.dmEmbed x title)
    else e.fail .discordError) e

def fillTransition (messageX : Nat) (fetchOk dmOk : Nat → Bool) (gid : Nat) (e : Exec) : Exec :=
  match findGame e.cur gid with
  | none => e
  | some g =>
    let ms := (membersOf e.cur gid).map (fun u => u.xid)
    let res :=
      if (ms.length : Int) = g.size then fetchLoop fetchOk ms e.cur
      else (e.cur, [])
    let e := { e with cur := res.1 }
    let found := res.2
    if (found.length : Int) = g.size then
      let e := (e.upd (fun s => updateGame s gid (fun g => { g with status := "started" }))).commit
      match findGame e.cur gid with
      | none => e
      | some g2 =>
        match toEmbed g2 (membersOf e.cur gid) with
        | .error pe => e.fail pe
        | .ok emb =>
          let e := dmAll dmOk emb.title found e
          if e.err.isSome then e
          else
            match toEmbed g2 (membersOf e.cur gid) with
            | .error pe => e.fail pe
            | .ok emb2 => ((e.act (.editMessage messageX emb2.title)).act (.clearReactions messageX))
    else
      let e := e.commit
      match findGame e.cur gid with
      | none => e
      | some g2 =>
        match toEmbed g2 (membersOf e.cur gid) with
        | .error pe => e.fail pe
        | .ok emb => e.act (.editMessage messageX emb.title)

/-- `SpellBot.on_raw_reaction_add` (lines 388-471), from the point where the
event has passed the emoji / text-channel / non-bot / message-fetch gates (those
gates touch no store state).  `fetchOk` models `safe_fetch_user`; `dmOk` models
whether a raw `author.send` succeeds. -/
def onRawReactionAdd (emoji : Emoji) (guildX : Nat) (chanName : String)
    (messageX authorX : Nat) (now : Int) (fetchOk dmOk : Nat → Bool)
    (st : Store) : Exec :=
  let e := ((Exec.start st).upd (fun s => ensureServerExists s guildX)).commit
  let server := getServer e.cur guildX
  if ¬ botAllowedIn server chanName then e
  else
    match findGameByMessage e.cur messageX with
    | none => e
    | some game =>
      if game.status ≠ "pending" then e
      else
        let e := (e.upd (fun s => ensureUserExists s authorX)).commit
        let user := getUser e.cur authorX
        let expiresAt := now + server.expire
        let e := e.act (.removeReaction messageX emoji authorX)
        match emoji with
        | .plus =>
          if (membersOf e.cur game.id).any (fun gu => authorX = gu.xid) then e
          else if (match user.game_id.bind (findGame e.cur) with
                   | some g2 => decide (g2.id ≠ game.id)
                   | none => false) then
            (if dmOk authorX then e.act (.dm authorX "react_already_in") else e.fail .discordError)
          else
            let e := e.upd (fun s => setUserGame s authorX (some game.id))
            let e := (e.upd (fun s => updateGame s game.id
              (fun g => { g with updated_at := some now, expires_at := some expiresAt }))).commit
            fillTransition messageX fetchOk dmOk game.id e
        | .minus =>
          if ¬ (membersOf e.cur game.id).any (fun gu => authorX = gu.xid) then e
          else
            let e := e.upd (fun s => updateGame s game.id
              (fun g => { g with updated_at := some now, expires_at := some expiresAt }))
            let e := (e.upd (fun s => setUserGame s authorX none)).commit
            match findGame e.cur game.id with
            | none => e
            | some g2 =>
              match toEmbed g2 (membersOf e.cur game.id) with
              | .error pe => e.fail pe
              | .ok emb => e.act (.editMessage messageX emb.title)

/-- The invitee-ensuring loop of `lfg` (lines 656-663): ensure each mentioned
user's row, abort with `lfg_mention_already` if one is already waiting.  The
second component is `true` when the command returned early. -/
def mentionEnsure (chanOk : Bool) : List Nat → Exec → Exec × Bool
  | [], e => (e, false)
  | x :: rest, e =>
    let e := e.upd (fun s => ensureUserExists s x)
    if userWaiting e.cur (getUser e.cur x) then
      ((if chanOk then e.act (.chanSend "lfg_mention_already") else e.fail .discordError), true)
    else mentionEnsure chanOk rest e

/-- The invite notification loop of `lfg` (lines 686-687); raw `mentioned.send`
calls, so the first failure raises and aborts the loop. -/
def dmInvites (dmOk : Nat → Bool) (xs : List Nat) (e : Exec) : Exec :=
  xs.foldl (fun e x =>
    if e.err.isSome then e
    else if dmOk x then e.act (.dm x "lfg_invited")
    else e.fail .discordError) e

/-- `SpellBot.lfg` (lines 618-693) as dispatched from `on_message` for a guild
text channel: `on_message` first ensures the server row and checks the channel
allow-list (lines 508-513), then the command body runs in a fresh session.
`chanOk` models raw `message.channel.send` calls, `dmOk` raw invitee DMs,
`reactOk` the raw `post.add_reaction` calls, `newMsgId` the id discord assigns
to the posted summary message. -/
def lfg (authorX guildX chanX : Nat) (chanName : String) (params0 : List String)
    (mentions : List Nat) (now : Int) (newMsgId : Nat)
    (chanOk : Bool) (dmOk : Nat → Bool) (reactOk : Bool) (st : Store) : Exec :=
  let e := ((Exec.start st).upd (fun s => ensureServerExists s guildX)).commit
  let server := getServer e.cur guildX
  if ¬ botAllowedIn server chanName then e
  else
    let e := (e.upd (fun s => ensureServerExists s guildX)).commit
    let server := getServer e.cur guildX
    let e := e.upd (fun s => ensureUserExists s authorX)
    let user := getUser e.cur authorX
    if userWaiting e.cur user then
      (if chanOk then e.act (.chanSend "lfg_already") else e.fail .discordError)
    else
      let params := params0.map lowerStr
      match params.get? 0 with
      | none => e.fail .indexError
      | some title =>
        match params.get? 1 with
        | none => e.fail .indexError
        | some szStr =>
          match pyInt szStr with
          | .error pe => e.fail pe
          | .ok size =>
            if size = 0 ∨ ¬ (1 < size) then
              (if chanOk then e.act (.chanSend "lfg_size_bad") else e.fail .discordError)
            else if (mentions.length : Int) + 1 ≥ size then
              (if chanOk then e.act (.chanSend "lfg_too_many_mentions") else e.fail .discordError)
            else
              match mentionEnsure chanOk mentions e with
              | (e, true) => e
              | (e, false) =>
                let e := if mentions.isEmpty then e else e.commit
                let gid := e.cur.nextGameId
                let e := e.upd (fun s => { s with
                  games := s.games ++ [{ id := gid, created_at := now, updated_at := some now,
                                         expires_at := some (now + server.expire), size := size,
                                         guild_xid := guildX, channel_xid := some chanX,
                                         title := title, status := "pending",
                                         message_xid := none }],
                  nextGameId := s.nextGameId + 1 })
                let e := e.upd (fun s => updateUser s authorX
                  (fun u => { u with invited := false, game_id := some gid }))
                let e := e.upd (fun s => mentions.foldl (fun s x => updateUser s x
                  (fun u => { u with game_id := some gid, invited := true, invite_confirmed := false })) s)
                let e := e.commit
                if mentions.isEmpty then
                  if ¬ chanOk then e.fail .discordError
                  else
                    let e := e.act (.postGame newMsgId)
                    let e := (e.upd (fun s => updateGame s gid
                      (fun g => { g with message_xid := some newMsgId }))).commit
                    if reactOk then ((e.act (.addReaction newMsgId .plus)).act (.addReaction newMsgId .minus))
                    else e.fail .discordError
                else dmInvites dmOk mentions e

/-- `SpellBot.leave` (lines 695-708), as dispatched from a direct message (the
command allows DMs; a guild dispatch additionally ensures the server row, which
touches no game or user state).  Note: the game's `expires_at`/`updated_at` are
NOT refreshed here. -/
def leave (authorX : Nat) (chanOk : Bool) (st : Store) : Exec :=
  let e := (Exec.start st).upd (fun s => ensureUserExists s authorX)
  let user := getUser e.cur authorX
  if ¬ userWaiting e.cur user then
    (if chanOk then e.act (.chanSend "leave_already") else e.fail .discordError)
  else
    let e := match user.game_id.bind (findGame e.cur) with
             | some g => e.act (.attemptRemovePlus g.id authorX)
             | none => e
    let e := (e.upd (fun s => setUserGame s authorX none)).commit
    if chanOk then e.act (.chanSend "leave") else e.fail .discordError

/-- `SpellBot.process_invite_response` (lines 342-382).  `chanFound` models
`safe_fetch_channel` succeeding, `dmOk` the raw `message.author.send` calls,
`postOk`/`reactOk` the raw post and reaction calls, `newMsgId` the posted
message id.  The game's `expires_at` is NOT refreshed on decline. -/
def processInviteResponse (authorX : Nat) (choice : String)
    (chanFound dmOk postOk reactOk : Bool) (newMsgId : Nat) (st : Store) : Exec :=
  let e := ((Exec.start st).upd (fun s => ensureUserExists s authorX)).commit
  let user := getUser e.cur authorX
  if ¬ user.invited then
    (if dmOk then e.act (.dm authorX "invite_not_invited") else e.fail .discordError)
  else if user.invite_confirmed then
    (if dmOk then e.act (.dm authorX "invite_already_confirmed") else e.fail .discordError)
  else
    let gameId := user.game_id
    let e :=
      if choice = "yes" then
        let e := e.upd (fun s => updateUser s authorX (fun u => { u with invite_confirmed := true }))
        if dmOk then e.act (.dm authorX "invite_confirmed") else e.fail .discordError
      else
        let e := e.upd (fun s => updateUser s authorX
          (fun u => { u with invited := false, game_id := none }))
        if dmOk then e.act (.dm authorX "invite_denied") else e.fail .discordError
    if e.err.isSome then e
    else
      let e := e.commit
      match gameId.bind (findGame e.cur) with
      | none => e.fail .attributeError
      | some g =>
        if (membersOf e.cur g.id).all (fun u => (! u.invited) || (u.invited && u.invite_confirmed)) then
          if ¬ chanFound then
            ((e.upd (fun s => deleteGame s g.id)).commit)
          else
            match toEmbed g (membersOf e.cur g.id) with
            | .error pe => e.fail pe
            | .ok _ =>
              if ¬ postOk then e.fail .discordError
              else
                let e := e.act (.postGame newMsgId)
                let e := (e.upd (fun s => updateGame s g.id
                  (fun gg => { gg with message_xid := some newMsgId }))).commit
                if reactOk then ((e.act (.addReaction newMsgId .plus)).act (.addReaction newMsgId .minus))
                else e.fail .discordError
        else e

/-- Per-game body of the sweep loop (`cleanup_expired_games` lines 252-260):
best-effort message delete, then for every member fetch (safe) / DM (raw, can
raise) / clear the game reference, then delete the game row.  An exception
escapes the whole sweep. -/
def sweepGame (fetchOk dmOk : Nat → Bool) (gid : Nat) (e : Exec) : Exec :=
  if e.err.isSome then e
  else
    let e := e.act (.attemptDeleteMessage gid)
    let ms := (membersOf e.cur gid).map (fun u => u.xid)
    let e := ms.foldl (fun e x =>
      if e.err.isSome then e
      else
        let e := if fetchOk x then
                   (if dmOk x then e.act (.dm x "expired") else e.fail .discordError)
                 else e
        if e.err.isSome then e else e.upd (fun s => setUserGame s x none)) e
    if e.err.isSome then e
    else e.upd (fun s => deleteGame s gid)

/-- `SpellBot.cleanup_expired_games` (lines 248-261): one sweep cycle.  The
expired set is queried once; the single `session.commit()` happens only after
every game was processed, so any raised exception discards the entire cycle. -/
def cleanupExpiredGames (now : Int) (fetchOk dmOk : Nat → Bool) (st : Store) : Exec :=
  let e := Exec.start st
  let ids := (expiredGames st now).map (fun g => g.id)
  let e := ids.foldl (fun e gid => sweepGame fetchOk dmOk gid e) e
  if e.err.isSome then e else e.commit

/-- One unit of work of the system, with its inbound parameters and the oracles
for the external collaborators. -/
inductive Op where
  | reaction (emoji : Emoji) (guildX : Nat) (chanName : String) (messageX authorX : Nat)
      (now : Int) (fetchOk dmOk : Nat → Bool)
  | lfgCmd (authorX guildX chanX : Nat) (chanName : String) (params : List String)
      (mentions : List Nat) (now : Int) (newMsgId : Nat) (chanOk : Bool)
      (dmOk : Nat → Bool) (reactOk : Bool)
  | leaveCmd (authorX : Nat) (chanOk : Bool)
  | invite (authorX : Nat) (choice : String) (chanFound dmOk postOk reactOk : Bool)
      (newMsgId : Nat)
  | sweep (now : Int) (fetchOk dmOk : Nat → Bool)

def runOp : Op → Store → Exec
  | .reaction emoji guildX chanName messageX authorX now fetchOk dmOk =>
      onRawReactionAdd emoji guildX chanName messageX authorX now fetchOk dmOk
  | .lfgCmd authorX guildX chanX chanName params mentions now newMsgId chanOk dmOk reactOk =>
      lfg authorX guildX chanX chanName params mentions now newMsgId chanOk dmOk reactOk
  | .leaveCmd authorX chanOk => leave authorX chanOk
  | .invite authorX choice chanFound dmOk postOk reactOk newMsgId =>
      processInviteResponse authorX choice chanFound dmOk postOk reactOk newMsgId
  | .sweep now fetchOk dmOk => cleanupExpiredGames now fetchOk dmOk

/-- End-of-handler committed states, starting from the empty store. -/
inductive Reachable : Store → Prop
  | init : Reachable initStore
  | step (s : Store) (op : Op) : Reachable s → Reachable (runOp op s).committed

/-- Every committed state: an end-of-handler state, or any commit snapshot
inside a handler run from one. -/
def CommittedState (s' : Store) : Prop :=
  Reachable s' ∨ ∃ s op, Reachable s ∧ s' ∈ (runOp op s).commits

/-! Concrete fixtures used by witnesses and counterexamples. -/

def srv9 : Server := { guild_xid := 9, pfx := "!", expire := 30, channels := [] }

def gameRec (i : Nat) (status : String) (size : Int) (msg : Option Nat) (expires : Option Int) : Game :=
  { id := i, created_at := 100, updated_at := some 110, expires_at := expires, size := size,
    guild_xid := 9, channel_xid := some 7, title := "t", status := status, message_xid := msg }

def memberU (x : Nat) (gid : Nat) : User :=
  { xid := x, game_id := some gid, invited := false, invite_confirmed := false }

/-- A committed state holding a started size-2 game whose deadline has passed. -/
def startedStore : Store :=
  { servers := [srv9], users := [memberU 1 0, memberU 2 0],
    games := [gameRec 0 "started" 2 (some 500) (some 130)], nextGameId := 1 }

/-- A pending size-2 game with one member (xid 1), posted as message 500. -/
def pendingStore1 : Store :=
  { servers := [srv9], users := [memberU 1 0],
    games := [gameRec 0 "pending" 2 (some 500) (some 130)], nextGameId := 1 }

/-- An unposted pending size-3 game: initiator 1 plus invited, unconfirmed user 3. -/
def invStore : Store :=
  { servers := [srv9],
    users := [memberU 1 0, { xid := 3, game_id := some 0, invited := true, invite_confirmed := false }],
    games := [gameRec 0 "pending" 3 none (some 130)], nextGameId := 1 }

/-- Two pending expired games: game 0 with members 1 and 2, game 1 with member 3. -/
def expStore : Store :=
  { servers := [srv9], users := [memberU 1 0, memberU 2 0, memberU 3 1],
    games := [gameRec 0 "pending" 2 (some 500) (some 120),
              gameRec 1 "pending" 2 (some 501) (some 125)], nextGameId := 2 }

def isDmTo (x : Nat) : Act → Bool
  | .dm t _ => t = x
  | .dmEmbed t _ => t = x
  | _ => false

/-- Claim C2: the claim says a started game is never selected by the expiration
sweep.  On the code this is FALSE: `Game.expired` filters `status != "ready"`,
a status value no code path ever stores (the bot writes only `"pending"` and
`"started"`), so a started game past its deadline IS selected, its members are
direct-messaged that the game expired, their game references are cleared and the
game row is deleted.  This theorem evaluates the code at that failing input. -/
theorem C2_started_game_swept :
    (expiredGames startedStore 1000).map Game.id = [0] ∧
    (gameRec 0 "started" 2 (some 500) (some 130)).status = "started" ∧
    (cleanupExpiredGames 1000 (fun _ => true) (fun _ => true) startedStore).committed.games = [] ∧
    (cleanupExpiredGames 1000 (fun _ => true) (fun _ => true) startedStore).committed.users
      = [{ xid := 1, game_id := none, invited := false, invite_confirmed := false },
         { xid := 2, game_id := none, invited := false, invite_confirmed := false }] ∧
    (cleanupExpiredGames 1000 (fun _ => true) (fun _ => true) startedStore).actions
      = [.attemptDeleteMessage 0, .dm 1 "expired", .dm 2 "expired"] := by
  decide

/-- Claim C4: the claim says a failed per-member expiry DM does not prevent the
remaining cleanup steps nor the other games' cleanup.  On the code this is
FALSE: `cleanup_expired_games` calls `discord_user.send` without a `safe_`
wrapper and commits only once at the end of the cycle, so one failed DM raises
out of the loop and the WHOLE cycle is discarded: no member reference is
cleared, no game (not even the other expired one) is deleted. -/
theorem C4_dm_failure_aborts_sweep :
    (cleanupExpiredGames 1000 (fun _ => true) (fun x => x ≠ 2) expStore).err = some .discordError ∧
    (cleanupExpiredGames 1000 (fun _ => true) (fun x => x ≠ 2) expStore).committed = expStore ∧
    (cleanupExpiredGames 1000 (fun _ => true) (fun x => x ≠ 2) expStore).actions
      = [.attemptDeleteMessage 0, .dm 1 "expired"] := by
  decide

/-- Claim C8: the claim says that when a membership change fills the game the
status moves to started, each member is DMed a final summary, the post is
edited to the started presentation and its reactions are cleared.  On the code
the status commit happens, but `Game.to_embed` raises `NameError` for started
games (its `started` branch never assigns the local `title`), so the handler
aborts: no member DM, no message edit, no reaction clearing ever happens.  This
theorem evaluates the handler at a fill: user 2's join fills the size-2 game. -/
theorem C8_fill_raises_before_notify :
    ((onRawReactionAdd .plus 9 "general" 500 2 110 (fun _ => true) (fun _ => true)
        pendingStore1).committed.games.map Game.status = ["started"]) ∧
    (onRawReactionAdd .plus 9 "general" 500 2 110 (fun _ => true) (fun _ => true)
        pendingStore1).err = some .nameError ∧
    (onRawReactionAdd .plus 9 "general" 500 2 110 (fun _ => true) (fun _ => true)
        pendingStore1).actions = [.removeReaction 500 .plus 2] := by
  decide

/-- Claim C3 counterexample: user 1 leaves the pending game via the `!leave`
command (a membership change: the member count drops to 0), yet the committed
state keeps `expires_at = 130` — not `now + server.expire` (= 230 at `now =
200`; the handler never reads the clock at all). -/
theorem C3_counterexample :
    memberCount (leave 1 true pendingStore1).committed 0 = 0 ∧
    (leave 1 true pendingStore1).committed.games.map Game.expires_at = [some 130] ∧
    (some (130 : Int) ≠ some ((200 : Int) + srv9.expire)) := by
  decide

/-- Claim C7 counterexample: invited, unconfirmed user 3 declines.  The removal
succeeds (game reference cleared, invite flag cleared) and an `invite_denied`
notice goes to user 3 — the DECLINING user — while the game's initiator (user 1,
the only other member) receives no direct message at all, contradicting the
claim's "sends a private notification to the game's initiator". -/
theorem C7_counterexample :
    (processInviteResponse 3 "no" true true true true 600 invStore).committed.users
      = [memberU 1 0, { xid := 3, game_id := none, invited := false, invite_confirmed := false }] ∧
    (processInviteResponse 3 "no" true true true true 600 invStore).actions
      = [.dm 3 "invite_denied", .postGame 600, .addReaction 600 .plus, .addReaction 600 .minus] ∧
    ((processInviteResponse 3 "no" true true true true 600 invStore).actions.any (isDmTo 1)) = false := by
  decide

/-- Claim C10 counterexample: an `lfg` invocation with zero parameters by a user
who is already waiting in a pending game does NOT raise: the `user.waiting`
check replies `lfg_already` before `params[0]` is ever evaluated.  So "for
every invocation of lfg with fewer than two parameters the handler raises" is
false as stated. -/
theorem C10_counterexample :
    (lfg 1 9 7 "general" [] [] 300 700 true (fun _ => true) true pendingStore1).err = none ∧
    (lfg 1 9 7 "general" [] [] 300 700 true (fun _ => true) true pendingStore1).actions
      = [.chanSend "lfg_already"] ∧
    (lfg 1 9 7 "general" [] [] 300 700 true (fun _ => true) true pendingStore1).committed
      = pendingStore1 := by
  decide

/-! Small helper lemmas about the store primitives. -/

theorem ensureServer_found {st : Store} {g : Nat} {sv : Server}
    (h : findServer st g = some sv) : ensureServerExists st g = st := by
  simp [ensureServerExists, h]

theorem getServer_found {st : Store} {g : Nat} {sv : Server}
    (h : findServer st g = some sv) : getServer st g = sv := by
  simp [getServer, h]

theorem ensureUser_found {st : Store} {x : Nat} {u : User}
    (h : findUser st x = some u) : ensureUserExists st x = st := by
  simp [ensureUserExists, h]

theorem getUser_found {st : Store} {x : Nat} {u : User}
    (h : findUser st x = some u) : getUser st x = u := by
  simp [getUser, h]

theorem findUser_isSome_of_member {st : Store} {gid x : Nat}
    (h : (membersOf st gid).any (fun gu => x = gu.xid) = true) :
    ∃ u, findUser st x = some u := by
  rw [List.any_eq_true] at h
  obtain ⟨u, hu, hx⟩ := h
  have hmem : u ∈ st.users := (List.mem_filter.mp hu).1
  have : ∃ v ∈ st.users, (fun v : User => decide (v.xid = x)) v = true := by
    refine ⟨u, hmem, ?_⟩
    simp at hx
    simp [hx]
  rcases List.find?_isSome.mpr this with h2
  rcases Option.isSome_iff_exists.mp h2 with ⟨v, hv⟩
  exact ⟨v, hv⟩

/-- Claim C5: reapplying a join signal for a user who is already a member of
the targeted pending game is a no-op on the store: every commit in the handler
run commits the unchanged state, no exception is raised, and the only outbound
effect is the best-effort removal of the author's ➕ reaction. -/
theorem C5_join_idempotent (st : Store) (sv : Server) (game : Game) (guildX : Nat)
    (chanName : String) (messageX authorX : Nat) (now : Int) (fetchOk dmOk : Nat → Bool)
    (hs : findServer st guildX = some sv)
    (ha : botAllowedIn sv chanName = true)
    (hg : findGameByMessage st messageX = some game)
    (hp : game.status = "pending")
    (hm : (membersOf st game.id).any (fun gu => authorX = gu.xid) = true) :
    (onRawReactionAdd .plus guildX chanName messageX authorX now fetchOk dmOk st).committed = st ∧
    (onRawReactionAdd .plus guildX chanName messageX authorX now fetchOk dmOk st).commits = [st, st] ∧
    (onRawReactionAdd .plus guildX chanName messageX authorX now fetchOk dmOk st).err = none ∧
    (onRawReactionAdd .plus guildX chanName messageX authorX now fetchOk dmOk st).actions
      = [.removeReaction messageX .plus authorX] := by
  obtain ⟨u, hu⟩ := findUser_isSome_of_member hm
  simp [onRawReactionAdd, Exec.start, Exec.commit, Exec.upd, Exec.act,
    ensureServer_found hs, getServer_found hs, hg, hp,
    ensureUser_found hu, getUser_found hu, ha, hm]

/-- Claim C5 witness: user 1 is already the sole member of the pending game in
`pendingStore1`; a second join signal from user 1 changes nothing. -/
theorem C5_witness :
    (onRawReactionAdd .plus 9 "general" 500 1 50 (fun _ => true) (fun _ => true)
        pendingStore1).committed = pendingStore1 ∧
    (onRawReactionAdd .plus 9 "general" 500 1 50 (fun _ => true) (fun _ => true)
        pendingStore1).commits = [pendingStore1, pendingStore1] ∧
    (onRawReactionAdd .plus 9 "general" 500 1 50 (fun _ => true) (fun _ => true)
        pendingStore1).err = none ∧
    (onRawReactionAdd .plus 9 "general" 500 1 50 (fun _ => true) (fun _ => true)
        pendingStore1).actions = [.removeReaction 500 .plus 1] :=
  C5_join_idempotent pendingStore1 srv9 (gameRec 0 "pending" 2 (some 500) (some 130))
    9 "general" 500 1 50 (fun _ => true) (fun _ => true)
    (by decide) (by decide) (by decide) (by decide) (by decide)

/-- Claim C9: a started game admits no further membership signals.  Any ➕ or ➖
reaction resolved to its posted message returns at the status gate: the store
is untouched (the single commit snapshots the unchanged state), no action is
emitted and nothing is raised — in particular the status cannot move out of
`"started"`.  A `!leave` command from one of its members is likewise rejected
(`leave_already`) without any commit. -/
theorem C9_started_is_terminal (st : Store) (sv : Server) (game : Game) (guildX : Nat)
    (chanName : String) (messageX : Nat) (now : Int) (fetchOk dmOk : Nat → Bool)
    (hs : findServer st guildX = some sv)
    (ha : botAllowedIn sv chanName = true)
    (hg : findGameByMessage st messageX = some game)
    (hstarted : game.status = "started") :
    (∀ emoji authorX,
      (onRawReactionAdd emoji guildX chanName messageX authorX now fetchOk dmOk st).committed = st ∧
      (onRawReactionAdd emoji guildX chanName messageX authorX now fetchOk dmOk st).commits = [st] ∧
      (onRawReactionAdd emoji guildX chanName messageX authorX now fetchOk dmOk st).err = none ∧
      (onRawReactionAdd emoji guildX chanName messageX authorX now fetchOk dmOk st).actions = []) ∧
    (∀ x u, findUser st x = some u → u.game_id = some game.id →
      findGame st game.id = some game →
      (leave x true st).committed = st ∧
      (leave x true st).commits = [] ∧
      (leave x true st).err = none ∧
      (leave x true st).actions = [.chanSend "leave_already"]) := by
  constructor
  · intro emoji authorX
    have hne : ¬ game.status = "pending" := by rw [hstarted]; decide
    simp [onRawReactionAdd, Exec.start, Exec.commit, Exec.upd, Exec.act,
      ensureServer_found hs, getServer_found hs, hg, hne, ha]
  · intro x u hu hug hfg
    have hw : userWaiting st u = false := by
      simp [userWaiting, hug, hfg, hstarted]
    simp [leave, Exec.start, Exec.commit, Exec.upd, Exec.act,
      ensureUser_found hu, getUser_found hu, hw]

/-- Claim C9 witness: on `startedStore` (a filled, started size-2 game), a fifth
join signal (here: a further ➕ from user 7, and a ➖ from member 1) is a no-op,
and member 1's `!leave` is rejected without mutation. -/
theorem C9_witness :
    ((onRawReactionAdd .plus 9 "general" 500 7 50 (fun _ => true) (fun _ => true)
        startedStore).committed = startedStore ∧
     (onRawReactionAdd .plus 9 "general" 500 7 50 (fun _ => true) (fun _ => true)
        startedStore).commits = [startedStore] ∧
     (onRawReactionAdd .plus 9 "general" 500 7 50 (fun _ => true) (fun _ => true)
        startedStore).err = none ∧
     (onRawReactionAdd .plus 9 "general" 500 7 50 (fun _ => true) (fun _ => true)
        startedStore).actions = []) ∧
    ((leave 1 true startedStore).committed = startedStore ∧
     (leave 1 true startedStore).commits = [] ∧
     (leave 1 true startedStore).err = none ∧
     (leave 1 true startedStore).actions = [.chanSend "leave_already"]) := by
  have h := C9_started_is_terminal startedStore srv9 (gameRec 0 "started" 2 (some 500) (some 130))
    9 "general" 500 50 (fun _ => true) (fun _ => true)
    (by decide) (by decide) (by decide) (by decide)
  exact ⟨h.1 .plus 7, h.2 1 (memberU 1 0) (by decide) (by decide) (by decide)⟩

/-! Structural simp lemmas for the execution and store primitives. -/

@[simp] theorem start_cur (s : Store) : (Exec.start s).cur = s := rfl

@[simp] theorem start_committed (s : Store) : (Exec.start s).committed = s := rfl

@[simp] theorem start_commits (s : Store) : (Exec.start s).commits = [] := rfl

@[simp] theorem start_actions (s : Store) : (Exec.start s).actions = [] := rfl

@[simp] theorem start_err (s : Store) : (Exec.start s).err = none := rfl

@[simp] theorem act_cur (e : Exec) (a : Act) : (e.act a).cur = e.cur := rfl

@[simp] theorem act_committed (e : Exec) (a : Act) : (e.act a).committed = e.committed := rfl

@[simp] theorem act_commits (e : Exec) (a : Act) : (e.act a).commits = e.commits := rfl

@[simp] theorem act_actions (e : Exec) (a : Act) : (e.act a).actions = e.actions ++ [a] := rfl

@[simp] theorem act_err (e : Exec) (a : Act) : (e.act a).err = e.err := rfl

@[simp] theorem fail_cur (e : Exec) (p : PyError) : (e.fail p).cur = e.cur := rfl

@[simp] theorem fail_committed (e : Exec) (p : PyError) : (e.fail p).committed = e.committed := rfl

@[simp] theorem fail_commits (e : Exec) (p : PyError) : (e.fail p).commits = e.commits := rfl

@[simp] theorem fail_actions (e : Exec) (p : PyError) : (e.fail p).actions = e.actions := rfl

@[simp] theorem fail_err (e : Exec) (p : PyError) : (e.fail p).err = some p := rfl

@[simp] theorem upd_cur (e : Exec) (f : Store → Store) : (e.upd f).cur = f e.cur := rfl

@[simp] theorem upd_committed (e : Exec) (f : Store → Store) : (e.upd f).committed = e.committed := rfl

@[simp] theorem upd_commits (e : Exec) (f : Store → Store) : (e.upd f).commits = e.commits := rfl

@[simp] theorem upd_actions (e : Exec) (f : Store → Store) : (e.upd f).actions = e.actions := rfl

@[simp] theorem upd_err (e : Exec) (f : Store → Store) : (e.upd f).err = e.err := rfl

@[simp] theorem commit_cur (e : Exec) : e.commit.cur = e.cur := rfl

@[simp] theorem commit_committed (e : Exec) : e.commit.committed = e.cur := rfl

@[simp] theorem commit_commits (e : Exec) : e.commit.commits = e.commits ++ [e.cur] := rfl

@[simp] theorem commit_actions (e : Exec) : e.commit.actions = e.actions := rfl

@[simp] theorem commit_err (e : Exec) : e.commit.err = e.err := rfl

@[simp] theorem updateUser_games (s : Store) (x : Nat) (f : User → User) :
    (updateUser s x f).games = s.games := rfl

@[simp] theorem updateUser_servers (s : Store) (x : Nat) (f : User → User) :
    (updateUser s x f).servers = s.servers := rfl

@[simp] theorem updateUser_next (s : Store) (x : Nat) (f : User → User) :
    (updateUser s x f).nextGameId = s.nextGameId := rfl

@[simp] theorem updateGame_users (s : Store) (gid : Nat) (f : Game → Game) :
    (updateGame s gid f).users = s.users := rfl

@[simp] theorem updateGame_servers (s : Store) (gid : Nat) (f : Game → Game) :
    (updateGame s gid f).servers = s.servers := rfl

@[simp] theorem updateGame_next (s : Store) (gid : Nat) (f : Game → Game) :
    (updateGame s gid f).nextGameId = s.nextGameId := rfl

@[simp] theorem ensureUser_games (s : Store) (x : Nat) :
    (ensureUserExists s x).games = s.games := by
  unfold ensureUserExists; cases findUser s x <;> rfl

@[simp] theorem ensureUser_servers (s : Store) (x : Nat) :
    (ensureUserExists s x).servers = s.servers := by
  unfold ensureUserExists; cases findUser s x <;> rfl

@[simp] theorem ensureUser_next (s : Store) (x : Nat) :
    (ensureUserExists s x).nextGameId = s.nextGameId := by
  unfold ensureUserExists; cases findUser s x <;> rfl

@[simp] theorem ensureServer_users (s : Store) (g : Nat) :
    (ensureServerExists s g).users = s.users := by
  unfold ensureServerExists; cases findServer s g <;> rfl

@[simp] theorem ensureServer_games (s : Store) (g : Nat) :
    (ensureServerExists s g).games = s.games := by
  unfold ensureServerExists; cases findServer s g <;> rfl

@[simp] theorem ensureServer_next (s : Store) (g : Nat) :
    (ensureServerExists s g).nextGameId = s.nextGameId := by
  unfold ensureServerExists; cases findServer s g <;> rfl

theorem findGame_updateUser (s : Store) (x : Nat) (f : User → User) (gid : Nat) :
    findGame (updateUser s x f) gid = findGame s gid := rfl

theorem findGame_ensureUser (s : Store) (x : Nat) (gid : Nat) :
    findGame (ensureUserExists s x) gid = findGame s gid := by
  unfold findGame; rw [ensureUser_games]

theorem findGame_ensureServer (s : Store) (g : Nat) (gid : Nat) :
    findGame (ensureServerExists s g) gid = findGame s gid := by
  unfold findGame; rw [ensureServer_games]

theorem findUser_append_self (s : Store) (x : Nat) (h : findUser s x = none) :
    findUser { s with users := s.users ++ [newUser x] } x = some (newUser x) := by
  unfold findUser at *
  rw [List.find?_append, h]
  simp [newUser]

/-- The `user.waiting` check made by `lfg` and `leave` right after
`ensure_user_exists` agrees with the check evaluated on the original store:
a freshly created row has no game reference and so is never waiting. -/
theorem waiting_after_ensure (st : Store) (x : Nat) :
    userWaiting (ensureUserExists st x) (getUser (ensureUserExists st x) x)
      = userWaiting st (getUser st x) := by
  cases hf : findUser st x with
  | some u => simp [ensureUserExists, hf]
  | none =>
    have h2 := findUser_append_self st x hf
    simp only [newUser] at h2
    simp [ensureUserExists, hf, getUser, h2, userWaiting, newUser]

/-- A store holding only the server row for guild 9. -/
def srvStore : Store := { servers := [srv9], users := [], games := [], nextGameId := 0 }

/-- Claim C10 (amended): for a user who is NOT already waiting in a pending
game, an `lfg` invocation with fewer than two parameters raises `IndexError`
(`params[0]` / `params[1]`), and one whose second parameter `int()` cannot
parse raises `ValueError` — in both cases before any size or invitee check, with
no reply sent and nothing committed beyond the unchanged store. -/
theorem C10_amended (st : Store) (sv : Server) (authorX guildX chanX : Nat)
    (chanName : String) (mentions : List Nat) (now : Int) (newMsgId : Nat)
    (chanOk : Bool) (dmOk : Nat → Bool) (reactOk : Bool)
    (hs : findServer st guildX = some sv)
    (ha : botAllowedIn sv chanName = true)
    (hw : userWaiting st (getUser st authorX) = false) :
    (∀ params : List String, params.length < 2 →
      (lfg authorX guildX chanX chanName params mentions now newMsgId chanOk dmOk reactOk st).err
        = some .indexError ∧
      (lfg authorX guildX chanX chanName params mentions now newMsgId chanOk dmOk reactOk st).committed = st ∧
      (lfg authorX guildX chanX chanName params mentions now newMsgId chanOk dmOk reactOk st).actions = []) ∧
    (∀ (params : List String) (t z : String) (rest : List String),
      params.map lowerStr = t :: z :: rest →
      pyInt z = .error .valueError →
      (lfg authorX guildX chanX chanName params mentions now newMsgId chanOk dmOk reactOk st).err
        = some .valueError ∧
      (lfg authorX guildX chanX chanName params mentions now newMsgId chanOk dmOk reactOk st).committed = st ∧
      (lfg authorX guildX chanX chanName params mentions now newMsgId chanOk dmOk reactOk st).actions = []) := by
  constructor
  · intro params hlen
    rcases params with _ | ⟨a, _ | ⟨b, rest⟩⟩
    · simp [lfg, ensureServer_found hs, getServer_found hs, ha, waiting_after_ensure, hw]
    · simp [lfg, ensureServer_found hs, getServer_found hs, ha, waiting_after_ensure, hw]
    · simp at hlen; omega
  · intro params t z rest hmap hz
    simp [lfg, ensureServer_found hs, getServer_found hs, ha, waiting_after_ensure, hw, hmap, hz]

/-- Claim C10 amended witness: user 3 (absent, hence not waiting) invokes `lfg`
with no parameters (IndexError) and with a non-numeric second parameter
(ValueError); neither run commits anything or sends a reply. -/
theorem C10_amended_witness :
    ((lfg 3 9 7 "general" [] [] 100 500 true (fun _ => true) true srvStore).err
        = some .indexError ∧
     (lfg 3 9 7 "general" [] [] 100 500 true (fun _ => true) true srvStore).committed = srvStore ∧
     (lfg 3 9 7 "general" [] [] 100 500 true (fun _ => true) true srvStore).actions = []) ∧
    ((lfg 3 9 7 "general" ["t", "x2"] [] 100 500 true (fun _ => true) true srvStore).err
        = some .valueError ∧
     (lfg 3 9 7 "general" ["t", "x2"] [] 100 500 true (fun _ => true) true srvStore).committed = srvStore ∧
     (lfg 3 9 7 "general" ["t", "x2"] [] 100 500 true (fun _ => true) true srvStore).actions = []) := by
  have h := C10_amended srvStore srv9 3 9 7 "general" [] 100 500 true (fun _ => true) true
    (by decide) (by decide) (by decide)
  exact ⟨h.1 [] (by decide), h.2 ["t", "x2"] "t" "x2" [] (by decide) rfl⟩

/-- Claim C6: an `lfg` invocation (dispatched from an allowed guild channel)
whose parsed size is < 2, or which mentions too many invitees
(`len(mentions) + 1 >= size`), fails with a user-visible rejection
(`lfg_size_bad` / `lfg_too_many_mentions`, or `lfg_already` when the author is
already waiting) and commits no mutation: both commits in the run snapshot the
unchanged store, so no Game row is created and no User row is changed. -/
theorem C6_validation_rejects (st : Store) (sv : Server) (authorX guildX chanX : Nat)
    (chanName : String) (params : List String) (mentions : List Nat) (now : Int)
    (newMsgId : Nat) (dmOk : Nat → Bool) (reactOk : Bool) (t z : String) (size : Int)
    (hs : findServer st guildX = some sv)
    (ha : botAllowedIn sv chanName = true)
    (h0 : (params.map lowerStr).get? 0 = some t)
    (h1 : (params.map lowerStr).get? 1 = some z)
    (hz : pyInt z = .ok size)
    (hbad : size < 2 ∨ (mentions.length : Int) + 1 ≥ size) :
    (lfg authorX guildX chanX chanName params mentions now newMsgId true dmOk reactOk st).err = none ∧
    (lfg authorX guildX chanX chanName params mentions now newMsgId true dmOk reactOk st).committed = st ∧
    (lfg authorX guildX chanX chanName params mentions now newMsgId true dmOk reactOk st).commits = [st, st] ∧
    ((lfg authorX guildX chanX chanName params mentions now newMsgId true dmOk reactOk st).actions
        = [.chanSend "lfg_already"] ∨
     (lfg authorX guildX chanX chanName params mentions now newMsgId true dmOk reactOk st).actions
        = [.chanSend "lfg_size_bad"] ∨
     (lfg authorX guildX chanX chanName params mentions now newMsgId true dmOk reactOk st).actions
        = [.chanSend "lfg_too_many_mentions"]) := by
  cases hw : userWaiting st (getUser st authorX) with
  | true =>
    simp [lfg, ensureServer_found hs, getServer_found hs, ha, waiting_after_ensure, hw]
  | false =>
    simp only [List.get?_eq_getElem?, List.getElem?_map] at h0 h1
    by_cases hlt : size < 2
    · have hno : size ≤ 1 := by omega
      simp [lfg, ensureServer_found hs, getServer_found hs, ha, waiting_after_ensure, hw,
        h0, h1, hz, hno]
    · have h2 : ¬ (size = 0) := by omega
      have h4 : ¬ (size ≤ 1) := by omega
      have hm : size ≤ (mentions.length : Int) + 1 := by
        have := hbad.resolve_left hlt
        omega
      simp [lfg, ensureServer_found hs, getServer_found hs, ha, waiting_after_ensure, hw,
        h0, h1, hz, h2, h4, hm]

/-- Claim C6 witness: `!lfg t 1` (size 1 < 2) by absent user 3 on a fresh
server store is rejected with `lfg_size_bad` and commits nothing. -/
theorem C6_witness :
    (lfg 3 9 7 "general" ["t", "1"] [] 100 500 true (fun _ => true) true srvStore).err = none ∧
    (lfg 3 9 7 "general" ["t", "1"] [] 100 500 true (fun _ => true) true srvStore).committed = srvStore ∧
    (lfg 3 9 7 "general" ["t", "1"] [] 100 500 true (fun _ => true) true srvStore).commits
      = [srvStore, srvStore] ∧
    ((lfg 3 9 7 "general" ["t", "1"] [] 100 500 true (fun _ => true) true srvStore).actions
        = [.chanSend "lfg_already"] ∨
     (lfg 3 9 7 "general" ["t", "1"] [] 100 500 true (fun _ => true) true srvStore).actions
        = [.chanSend "lfg_size_bad"] ∨
     (lfg 3 9 7 "general" ["t", "1"] [] 100 500 true (fun _ => true) true srvStore).actions
        = [.chanSend "lfg_too_many_mentions"]) :=
  C6_validation_rejects srvStore srv9 3 9 7 "general" ["t", "1"] [] 100 500
    (fun _ => true) true "t" "1" 1
    (by decide) (by decide) (by decide) (by decide) rfl (by decide)

theorem find_xid_map (l : List User) (h : User → User) (hx : ∀ u, (h u).xid = u.xid) (x : Nat) :
    (l.map h).find? (fun u => u.xid = x) = (l.find? (fun u => u.xid = x)).map h := by
  induction l with
  | nil => rfl
  | cons a l ih =>
    by_cases hax : a.xid = x
    · simp [List.find?_cons, hx, hax]
    · simp [List.find?_cons, hx, hax, ih]

theorem findUser_updateUser_self {st : Store} {x : Nat} {f : User → User} {u : User}
    (hxid : ∀ v, (f v).xid = v.xid) (hu : findUser st x = some u) :
    findUser (updateUser st x f) x = some (f u) := by
  have hp := List.find?_some hu
  have hux : u.xid = x := by simpa using hp
  unfold findUser updateUser
  rw [find_xid_map _ _ (fun v => by by_cases hv : v.xid = x <;> simp [hv, hxid])]
  unfold findUser at hu
  rw [hu]
  simp [hux]

theorem findUser_deleteGame (s : Store) (gid x : Nat) :
    findUser (deleteGame s gid) x
      = (findUser s x).map
          (fun w => if w.game_id = some gid then { w with game_id := none } else w) := by
  unfold findUser deleteGame
  exact find_xid_map _ _ (fun w => by by_cases h : w.game_id = some gid <;> simp [h]) x

theorem findUser_updateGame (s : Store) (gid : Nat) (f : Game → Game) (x : Nat) :
    findUser (updateGame s gid f) x = findUser s x := rfl

/-- Claim C7 (amended): for an invited, unconfirmed user who declines, the
operation clears the user's game reference and invite flag and sends the
private `invite_denied` notice to the DECLINING user (no code path notifies the
initiator); for a user who was never invited, or whose invite is already
confirmed, it fails with a user-visible rejection and commits no change at all
(in particular no invite state changes). -/
theorem C7_amended (st : Store) (u : User) (authorX : Nat)
    (chanFound postOk reactOk : Bool) (newMsgId : Nat)
    (hu : findUser st authorX = some u) :
    (∀ choice, u.invited = false →
      (processInviteResponse authorX choice chanFound true postOk reactOk newMsgId st).committed = st ∧
      (processInviteResponse authorX choice chanFound true postOk reactOk newMsgId st).commits = [st] ∧
      (processInviteResponse authorX choice chanFound true postOk reactOk newMsgId st).err = none ∧
      (processInviteResponse authorX choice chanFound true postOk reactOk newMsgId st).actions
        = [.dm authorX "invite_not_invited"]) ∧
    (∀ choice, u.invited = true → u.invite_confirmed = true →
      (processInviteResponse authorX choice chanFound true postOk reactOk newMsgId st).committed = st ∧
      (processInviteResponse authorX choice chanFound true postOk reactOk newMsgId st).commits = [st] ∧
      (processInviteResponse authorX choice chanFound true postOk reactOk newMsgId st).err = none ∧
      (processInviteResponse authorX choice chanFound true postOk reactOk newMsgId st).actions
        = [.dm authorX "invite_already_confirmed"]) ∧
    (u.invited = true → u.invite_confirmed = false →
      ((findUser (processInviteResponse authorX "no" chanFound true postOk reactOk newMsgId st).committed
          authorX).map (fun v => (v.invited, v.game_id)) = some (false, none)) ∧
      (processInviteResponse authorX "no" chanFound true postOk reactOk newMsgId st).actions.head?
        = some (.dm authorX "invite_denied")) := by
  refine ⟨?_, ?_, ?_⟩
  · intro choice hinv
    simp [processInviteResponse, ensureUser_found hu, getUser_found hu, hinv]
  · intro choice hinv hconf
    simp [processInviteResponse, ensureUser_found hu, getUser_found hu, hinv, hconf]
  · intro hinv hconf
    have hx : ∀ v : User, ((fun w : User => { w with invited := false, game_id := none }) v).xid = v.xid :=
      fun v => rfl
    have hS := findUser_updateUser_self hx hu
    simp [processInviteResponse, ensureUser_found hu, getUser_found hu, hinv, hconf]
    rcases hgid : u.game_id with _ | gid
    · simp [hgid, hS, ensureUser_found hu]
    · rcases hfg : findGame st gid with _ | g
      · simp [hgid, hS, findGame_updateUser, hfg, ensureUser_found hu]
      · simp only [hgid, Option.some_bind, findGame_updateUser, hfg, ensureUser_found hu]
        split
        · cases chanFound with
          | false => simp [findUser_deleteGame, hS, ensureUser_found hu]
          | true =>
            rw [if_neg (by simp)]
            split
            · simp [hS, ensureUser_found hu]
            · cases postOk with
              | false => simp [hS, ensureUser_found hu]
              | true =>
                rw [if_neg (by simp)]
                cases reactOk <;> simp [hS, ensureUser_found hu, findUser_updateGame]
        · simp [hS, ensureUser_found hu]

/-- Claim C7 amended witness: on `invStore`, invited user 3 declines (game
reference and invite flag cleared, `invite_denied` DMed to user 3), and the
never-invited user 1 is rejected with `invite_not_invited` and no mutation. -/
theorem C7_amended_witness :
    ((findUser (processInviteResponse 3 "no" true true true true 600 invStore).committed 3).map
        (fun v => (v.invited, v.game_id)) = some (false, none)) ∧
    (processInviteResponse 3 "no" true true true true 600 invStore).actions.head?
      = some (.dm 3 "invite_denied") ∧
    (processInviteResponse 1 "no" true true true true 600 invStore).committed = invStore ∧
    (processInviteResponse 1 "no" true true true true 600 invStore).actions
      = [.dm 1 "invite_not_invited"] := by
  have h3 := C7_amended invStore
    { xid := 3, game_id := some 0, invited := true, invite_confirmed := false }
    3 true true true 600 (by decide)
  have h1 := C7_amended invStore (memberU 1 0) 1 true true true 600 (by decide)
  have hd := h3.2.2 rfl rfl
  exact ⟨hd.1, hd.2, (h1.1 "no" rfl).1, (h1.1 "no" rfl).2.2.2⟩

/-! Preservation lemmas used by the expires-at analysis. -/

theorem find_gid_map (l : List Game) (gid : Nat) (f : Game → Game)
    (hid : ∀ g, (f g).id = g.id) :
    (l.map (fun g => if g.id = gid then f g else g)).find? (fun g => g.id = gid)
      = (l.find? (fun g => g.id = gid)).map f := by
  induction l with
  | nil => rfl
  | cons a l ih =>
    by_cases h : a.id = gid
    · simp [List.find?_cons, h, hid]
    · simp [List.find?_cons, h, ih]

theorem findGame_updateGame_self (s : Store) (gid : Nat) (f : Game → Game)
    (hid : ∀ g, (f g).id = g.id) :
    findGame (updateGame s gid f) gid = (findGame s gid).map f := by
  unfold findGame updateGame
  exact find_gid_map s.games gid f hid

theorem findGame_setUserGame (s : Store) (x : Nat) (og : Option Nat) (gid : Nat) :
    findGame (setUserGame s x og) gid = findGame s gid := rfl

theorem findGame_eq_of_games {s s' : Store} (h : s.games = s'.games) (gid : Nat) :
    findGame s gid = findGame s' gid := by
  unfold findGame; rw [h]

theorem fetchLoop_games (fetchOk : Nat → Bool) (ms : List Nat) (s : Store) :
    (fetchLoop fetchOk ms s).1.games = s.games := by
  unfold fetchLoop
  suffices h : ∀ (acc : Store × List Nat),
      ((ms.foldl (fun (acc : Store × List Nat) x =>
        if fetchOk x then (acc.1, acc.2 ++ [x])
        else (setUserGame acc.1 x none, acc.2)) acc).1).games = acc.1.games by
    exact h (s, [])
  induction ms with
  | nil => intro acc; rfl
  | cons x ms ih =>
    intro acc
    simp only [List.foldl_cons]
    rw [ih]
    by_cases h : fetchOk x <;> simp [h, setUserGame]

theorem dmAll_committed (dmOk : Nat → Bool) (title : String) (found : List Nat) (e : Exec) :
    (dmAll dmOk title found e).committed = e.committed := by
  unfold dmAll
  induction found generalizing e with
  | nil => rfl
  | cons x l ih =>
    simp only [List.foldl_cons]
    rw [ih]
    by_cases h1 : e.err.isSome <;> by_cases h2 : dmOk x <;> simp [h1, h2]


/-- `fillTransition` never changes any game's `expires_at`: its only game-row
mutations are member drops and the status flip to `"started"`. -/
theorem fillTransition_expires (messageX : Nat) (fetchOk dmOk : Nat → Bool) (gid : Nat) (e : Exec)
    (hcm : (findGame e.committed gid).map Game.expires_at
             = (findGame e.cur gid).map Game.expires_at) :
    (findGame (fillTransition messageX fetchOk dmOk gid e).committed gid).map Game.expires_at
      = (findGame e.cur gid).map Game.expires_at := by
  unfold fillTransition
  cases hfg : findGame e.cur gid with
  | none => simpa [hfg] using hcm
  | some g =>
    simp only [hfg]
    set ms := (membersOf e.cur gid).map (fun u => u.xid) with hms
    by_cases hsz : ((ms.length : Int) = g.size)
    · simp only [hsz, if_true]
      have hE2 : Option.map Game.expires_at
          (findGame (updateGame (fetchLoop fetchOk ms e.cur).1 gid
            (fun g => { g with status := "started" })) gid)
          = Option.map Game.expires_at (some g) := by
        rw [findGame_updateGame_self ((fetchLoop fetchOk ms e.cur).1) gid
              (fun g => { g with status := "started" }) (fun _ => rfl),
            findGame_eq_of_games (fetchLoop_games fetchOk ms e.cur) gid, hfg]
        rfl
      have hB : Option.map Game.expires_at (findGame (fetchLoop fetchOk ms e.cur).1 gid)
          = Option.map Game.expires_at (some g) := by
        rw [findGame_eq_of_games (fetchLoop_games fetchOk ms e.cur) gid, hfg]
      split
      · split
        · simpa only [commit_committed, upd_cur] using hE2
        · split
          · simpa only [fail_committed, commit_committed, upd_cur] using hE2
          · split
            · simpa only [dmAll_committed, commit_committed, upd_cur] using hE2
            · split
              · simpa only [fail_committed, dmAll_committed, commit_committed, upd_cur] using hE2
              · simpa only [act_committed, dmAll_committed, commit_committed, upd_cur] using hE2
      · split
        · simpa only [commit_committed, upd_cur] using hB
        · split
          · simpa only [fail_committed, commit_committed, upd_cur] using hB
          · simpa only [act_committed, commit_committed, upd_cur] using hB
    · simp only [hsz, if_false]
      have hE2 : Option.map Game.expires_at
          (findGame (updateGame e.cur gid (fun g => { g with status := "started" })) gid)
          = Option.map Game.expires_at (some g) := by
        rw [findGame_updateGame_self e.cur gid
              (fun g => { g with status := "started" }) (fun _ => rfl), hfg]
        rfl
      split
      · split
        · simpa only [commit_committed, upd_cur] using hE2
        · split
          · simpa only [fail_committed, commit_committed, upd_cur] using hE2
          · split
            · simpa only [dmAll_committed, commit_committed, upd_cur] using hE2
            · split
              · simpa only [fail_committed, dmAll_committed, commit_committed, upd_cur] using hE2
              · simpa only [act_committed, dmAll_committed, commit_committed, upd_cur] using hE2
      · split
        · simp only [commit_committed, upd_cur, hfg]
        · split
          · simp only [fail_committed, commit_committed, upd_cur, hfg]
          · simp only [act_committed, commit_committed, upd_cur, hfg]

theorem findGame_touch (s : Store) (gid : Nat) (now expiresAt : Int) :
    findGame (updateGame s gid
        (fun g => { g with updated_at := some now, expires_at := some expiresAt })) gid
      = (findGame s gid).map
          (fun g => { g with updated_at := some now, expires_at := some expiresAt }) :=
  findGame_updateGame_self s gid _ (fun _ => rfl)

theorem findGame_setMsg (s : Store) (gid m : Nat) :
    findGame (updateGame s gid (fun g => { g with message_xid := some m })) gid
      = (findGame s gid).map (fun g => { g with message_xid := some m }) :=
  findGame_updateGame_self s gid _ (fun _ => rfl)

theorem C3_amended :
    (∀ (st : Store) (sv : Server) (game : Game) (u : User) (guildX : Nat) (chanName : String)
       (messageX authorX : Nat) (now : Int) (fetchOk dmOk : Nat → Bool),
      findServer st guildX = some sv →
      botAllowedIn sv chanName = true →
      findGameByMessage st messageX = some game →
      game.status = "pending" →
      (membersOf st game.id).any (fun gu => authorX = gu.xid) = false →
      findUser st authorX = some u →
      u.game_id = none →
      (findGame (onRawReactionAdd .plus guildX chanName messageX authorX now fetchOk dmOk st).committed
          game.id).map Game.expires_at = some (some (now + sv.expire))) ∧
    (∀ (st : Store) (sv : Server) (game : Game) (u : User) (guildX : Nat) (chanName : String)
       (messageX authorX : Nat) (now : Int) (fetchOk dmOk : Nat → Bool),
      findServer st guildX = some sv →
      botAllowedIn sv chanName = true →
      findGameByMessage st messageX = some game →
      game.status = "pending" →
      (membersOf st game.id).any (fun gu => authorX = gu.xid) = true →
      findUser st authorX = some u →
      (findGame (onRawReactionAdd .minus guildX chanName messageX authorX now fetchOk dmOk st).committed
          game.id).map Game.expires_at = some (some (now + sv.expire))) ∧
    (∀ (st : Store) (authorX : Nat) (chanOk : Bool),
      (leave authorX chanOk st).committed.games = st.games) ∧
    (∀ (st : Store) (u : User) (authorX gid : Nat) (postOk reactOk : Bool) (newMsgId : Nat),
      findUser st authorX = some u → u.invited = true → u.invite_confirmed = false →
      u.game_id = some gid →
      (findGame (processInviteResponse authorX "no" true true postOk reactOk newMsgId st).committed
          gid).map Game.expires_at = (findGame st gid).map Game.expires_at) := by
  refine ⟨?_, ?_, ?_, ?_⟩
  · intro st sv game u guildX chanName messageX authorX now fetchOk dmOk hs ha hg hp hnm hu hgid
    obtain ⟨g0, hg0⟩ : ∃ g0, findGame st game.id = some g0 := by
      have hmem := List.mem_of_find?_eq_some hg
      have hso : (findGame st game.id).isSome := List.find?_isSome.mpr ⟨game, hmem, by simp⟩
      exact Option.isSome_iff_exists.mp hso
    simp [onRawReactionAdd, ensureServer_found hs, getServer_found hs, ha, hg, hp,
      ensureUser_found hu, getUser_found hu, hnm, hgid]
    refine Option.map_eq_some'.mp ?_
    rw [fillTransition_expires]
    · simp only [commit_cur, upd_cur, act_cur, start_cur, ensureServer_found hs,
        ensureUser_found hu, findGame_touch, findGame_setUserGame, hg0]
      rfl
    · rfl
  · intro st sv game u guildX chanName messageX authorX now fetchOk dmOk hs ha hg hp hm hu
    obtain ⟨g0, hg0⟩ : ∃ g0, findGame st game.id = some g0 := by
      have hmem := List.mem_of_find?_eq_some hg
      have hso : (findGame st game.id).isSome := List.find?_isSome.mpr ⟨game, hmem, by simp⟩
      exact Option.isSome_iff_exists.mp hso
    simp [onRawReactionAdd, ensureServer_found hs, getServer_found hs, ha, hg, hp,
      ensureUser_found hu, getUser_found hu, hm]
    split
    · rename_i heq
      simp only [commit_cur, upd_cur, act_cur, start_cur, ensureServer_found hs,
        ensureUser_found hu, findGame_setUserGame, findGame_touch, hg0] at heq
      simp at heq
    · split
      · refine Option.map_eq_some'.mp ?_
        simp only [fail_committed, commit_committed, commit_cur, upd_cur, act_cur, start_cur,
          ensureServer_found hs, ensureUser_found hu, findGame_setUserGame, findGame_touch, hg0]
        rfl
      · refine Option.map_eq_some'.mp ?_
        simp only [act_committed, commit_committed, commit_cur, upd_cur, act_cur, start_cur,
          ensureServer_found hs, ensureUser_found hu, findGame_setUserGame, findGame_touch, hg0]
        rfl
  · intro st authorX chanOk
    unfold leave
    simp only [start_cur, upd_cur]
    by_cases hw : userWaiting (ensureUserExists st authorX)
        (getUser (ensureUserExists st authorX) authorX) = true
    · rw [if_neg (by simp [hw])]
      cases chanOk <;> simp <;> split <;> simp [setUserGame]
    · rw [if_pos (by simp [hw])]
      cases chanOk <;> simp
  · intro st u authorX gid postOk reactOk newMsgId hu hinv hconf hgid
    simp [processInviteResponse, ensureUser_found hu, getUser_found hu, hinv, hconf, hgid,
      findGame_updateUser]
    rcases hfg : findGame st gid with _ | g
    · simp [hfg, findGame_updateUser, findGame_ensureUser]
    · have hgidg : g.id = gid := by have := List.find?_some hfg; simpa using this
      simp only [hfg]
      split
      · split
        · simp [hfg, findGame_updateUser, findGame_ensureUser]
        · cases postOk with
          | false => simp [hfg, findGame_updateUser, findGame_ensureUser]
          | true =>
            rw [if_neg (by simp)]
            cases reactOk <;>
              simp [hgidg, findGame_setMsg, hfg, findGame_updateUser, findGame_ensureUser]
      · simp [hfg, findGame_updateUser, findGame_ensureUser]

/-- A pending size-3 game with member 1, plus a free user 2 (no game). -/
def pendingStore2 : Store :=
  { servers := [srv9], users := [memberU 1 0, newUser 2],
    games := [gameRec 0 "pending" 3 (some 500) (some 130)], nextGameId := 1 }

/-- Claim C3 amended witness: a reaction join (user 2) and a reaction leave
(user 1) at time 50 refresh `expires_at` to `50 + 30`; the `!leave` command
leaves the games table untouched; user 3's invite decline leaves the game's
`expires_at` exactly as it was. -/
theorem C3_amended_witness :
    ((findGame (onRawReactionAdd .plus 9 "general" 500 2 50 (fun _ => true) (fun _ => true)
        pendingStore2).committed 0).map Game.expires_at = some (some (50 + srv9.expire))) ∧
    ((findGame (onRawReactionAdd .minus 9 "general" 500 1 50 (fun _ => true) (fun _ => true)
        pendingStore1).committed 0).map Game.expires_at = some (some (50 + srv9.expire))) ∧
    ((leave 1 true pendingStore1).committed.games = pendingStore1.games) ∧
    ((findGame (processInviteResponse 3 "no" true true true true 600 invStore).committed 0).map
        Game.expires_at = (findGame invStore 0).map Game.expires_at) := by
  refine ⟨?_, ?_, ?_, ?_⟩
  · exact C3_amended.1 pendingStore2 srv9 (gameRec 0 "pending" 3 (some 500) (some 130))
      (newUser 2) 9 "general" 500 2 50 (fun _ => true) (fun _ => true)
      (by decide) (by decide) (by decide) (by decide) (by decide) (by decide) (by decide)
  · exact C3_amended.2.1 pendingStore1 srv9 (gameRec 0 "pending" 2 (some 500) (some 130))
      (memberU 1 0) 9 "general" 500 1 50 (fun _ => true) (fun _ => true)
      (by decide) (by decide) (by decide) (by decide) (by decide) (by decide)
  · exact C3_amended.2.2.1 pendingStore1 1 true
  · exact C3_amended.2.2.2 invStore
      { xid := 3, game_id := some 0, invited := true, invite_confirmed := false }
      3 0 true true 600 (by decide) rfl rfl rfl

/-! The reachability invariant for claim C1 and its counting toolkit. -/

def xidsOk (s : Store) : Prop := (s.users.map User.xid).Nodup

def gidsOk (s : Store) : Prop := (s.games.map Game.id).Nodup

def gidsLt (s : Store) : Prop := ∀ g ∈ s.games, g.id < s.nextGameId

def refsLt (s : Store) : Prop :=
  ∀ u ∈ s.users, ∀ gid, u.game_id = some gid → gid < s.nextGameId

def countsOk (s : Store) : Prop :=
  ∀ g ∈ s.games,
    (memberCount s g.id : Int) ≤ g.size ∧
    (g.status = "pending" → (memberCount s g.id : Int) < g.size)

def StoreInv (s : Store) : Prop := xidsOk s ∧ gidsOk s ∧ gidsLt s ∧ refsLt s ∧ countsOk s

/-- The safety property of claim C1 at one committed snapshot. -/
def Weak (s : Store) : Prop := ∀ g ∈ s.games, (memberCount s g.id : Int) ≤ g.size

theorem StoreInv.weak {s : Store} (h : StoreInv s) : Weak s := fun g hg => (h.2.2.2.2 g hg).1

theorem countP_map_le (l : List User) (h : User → User) (p : User → Bool)
    (hmono : ∀ a ∈ l, p (h a) = true → p a = true) :
    (l.map h).countP p ≤ l.countP p := by
  rw [List.countP_map]
  exact List.countP_mono_left hmono

theorem countP_map_lt (l : List User) (h : User → User) (p : User → Bool)
    (hmono : ∀ a ∈ l, p (h a) = true → p a = true)
    (hwit : ∃ a ∈ l, p a = true ∧ p (h a) = false) :
    (l.map h).countP p < l.countP p := by
  induction l with
  | nil => simp at hwit
  | cons a l ih =>
    obtain ⟨w, hw, hwp, hwh⟩ := hwit
    simp only [List.map_cons, List.countP_cons]
    rcases List.mem_cons.mp hw with rfl | hwl
    · have hle := countP_map_le l h p (fun b hb => hmono b (List.mem_cons_of_mem _ hb))
      rw [hwp, hwh]
      simp only [Bool.false_eq_true, if_false, if_true]
      omega
    · have hlt := ih (fun b hb => hmono b (List.mem_cons_of_mem _ hb)) ⟨w, hwl, hwp, hwh⟩
      have hha : (if p (h a) = true then 1 else 0) ≤ (if p a = true then 1 else 0) := by
        by_cases hpa : p (h a) = true
        · rw [hpa, hmono a (List.mem_cons_self a l) hpa]
        · simp [hpa]
      omega

theorem countP_map_le_add_key (l : List User) (h : User → User) (x : Nat) (p : User → Bool)
    (hkeep : ∀ a, a.xid ≠ x → h a = a) :
    (l.map h).countP p ≤ l.countP p + l.countP (fun u => u.xid = x) := by
  induction l with
  | nil => simp
  | cons a l ih =>
    simp only [List.map_cons, List.countP_cons]
    by_cases hax : a.xid = x
    · have hb : (if p (h a) = true then 1 else 0) ≤ 1 := by
        by_cases hp : p (h a) = true <;> simp [hp]
      have hkey : (decide (a.xid = x)) = true := by simpa using hax
      simp only [hkey, if_true]
      omega
    · rw [hkeep a hax]
      have hkey : (decide (a.xid = x)) = false := by simpa using hax
      simp only [hkey, Bool.false_eq_true, if_false]
      omega

theorem countP_key_le_one (l : List User) (x : Nat) (hnd : (l.map User.xid).Nodup) :
    l.countP (fun u => u.xid = x) ≤ 1 := by
  induction l with
  | nil => simp
  | cons a l ih =>
    simp only [List.map_cons, List.nodup_cons] at hnd
    simp only [List.countP_cons]
    by_cases hax : a.xid = x
    · have hz : l.countP (fun u => u.xid = x) = 0 := by
        rw [List.countP_eq_zero]
        intro b hb
        simp only [decide_eq_true_eq]
        intro hbx
        exact hnd.1 (List.mem_map.mpr ⟨b, hb, by rw [hbx, hax]⟩)
      simp [hax, hz]
    · have hkey : (decide (a.xid = x)) = false := by simpa using hax
      simp only [hkey, Bool.false_eq_true, if_false]
      have := ih hnd.2
      omega

/-! Store-level counting and invariant-component lemmas. -/

theorem memberCount_updateGame (s : Store) (gid' : Nat) (f : Game → Game) (gid : Nat) :
    memberCount (updateGame s gid' f) gid = memberCount s gid := rfl

theorem memberCount_ensureServer (s : Store) (g : Nat) (gid : Nat) :
    memberCount (ensureServerExists s g) gid = memberCount s gid := by
  unfold memberCount
  rw [ensureServer_users]

theorem memberCount_ensureUser (s : Store) (x : Nat) (gid : Nat) :
    memberCount (ensureUserExists s x) gid = memberCount s gid := by
  unfold ensureUserExists
  cases findUser s x with
  | some u => rfl
  | none =>
    unfold memberCount
    simp [List.countP_append, newUser]

theorem memberCount_updateUser_ne (s : Store) (x : Nat) (f : User → User) (gid : Nat)
    (hf : ∀ w, (f w).game_id ≠ some gid) :
    memberCount (updateUser s x f) gid ≤ memberCount s gid := by
  unfold memberCount updateUser
  apply countP_map_le
  intro a _ ha
  by_cases hax : a.xid = x
  · rw [if_pos hax] at ha
    simp only [decide_eq_true_eq] at ha
    exact absurd ha (hf a)
  · rwa [if_neg hax] at ha

theorem memberCount_updateUser_eq (s : Store) (x : Nat) (f : User → User) (gid : Nat)
    (hf : ∀ w, (f w).game_id = w.game_id) :
    memberCount (updateUser s x f) gid = memberCount s gid := by
  unfold memberCount updateUser
  rw [List.countP_map]
  apply List.countP_congr
  intro a _
  by_cases hax : a.xid = x <;> simp [Function.comp, hax, hf]

theorem memberCount_updateUser_succ (s : Store) (x : Nat) (f : User → User) (gid : Nat)
    (hx : xidsOk s) :
    memberCount (updateUser s x f) gid ≤ memberCount s gid + 1 := by
  unfold memberCount updateUser
  simp only []
  have h1 := countP_map_le_add_key s.users
    (fun u => if u.xid = x then f u else u) x (fun u => u.game_id = some gid)
    (fun a hax => if_neg hax)
  have h2 := countP_key_le_one s.users x hx
  omega

theorem memberCount_setNone_lt (s : Store) (x gid : Nat)
    (hpt : ∃ u ∈ s.users, u.xid = x ∧ u.game_id = some gid) :
    memberCount (setUserGame s x none) gid < memberCount s gid := by
  unfold memberCount setUserGame updateUser
  apply countP_map_lt
  · intro a _ ha
    by_cases hax : a.xid = x
    · rw [if_pos hax] at ha
      simp at ha
    · rwa [if_neg hax] at ha
  · obtain ⟨u, hu, hux, hug⟩ := hpt
    refine ⟨u, hu, by simp [hug], ?_⟩
    rw [if_pos hux]
    simp

theorem memberCount_deleteGame_le (s : Store) (gid' gid : Nat) :
    memberCount (deleteGame s gid') gid ≤ memberCount s gid := by
  unfold memberCount deleteGame
  apply countP_map_le
  intro a _ ha
  by_cases h : a.game_id = some gid'
  · rw [if_pos h] at ha
    simp at ha
  · rwa [if_neg h] at ha

theorem memberCount_next_zero (s : Store) (h : refsLt s) : memberCount s s.nextGameId = 0 := by
  unfold memberCount
  rw [List.countP_eq_zero]
  intro u hu
  simp only [decide_eq_true_eq]
  intro hg
  exact absurd (h u hu _ hg) (lt_irrefl _)

/-! Preservation of the bookkeeping components. -/

theorem map_xid_updateUser (s : Store) (x : Nat) (f : User → User)
    (hf : ∀ w, (f w).xid = w.xid) :
    ((updateUser s x f).users.map User.xid) = s.users.map User.xid := by
  unfold updateUser
  rw [List.map_map]
  apply List.map_congr_left
  intro a _
  by_cases hax : a.xid = x <;> simp [Function.comp, hax, hf]

theorem xidsOk_updateUser (s : Store) (x : Nat) (f : User → User)
    (hf : ∀ w, (f w).xid = w.xid) (h : xidsOk s) : xidsOk (updateUser s x f) := by
  unfold xidsOk
  rw [map_xid_updateUser s x f hf]
  exact h

theorem xidsOk_ensureUser (s : Store) (x : Nat) (h : xidsOk s) : xidsOk (ensureUserExists s x) := by
  unfold ensureUserExists
  cases hf : findUser s x with
  | some u => exact h
  | none =>
    unfold xidsOk at *
    simp only [List.map_append]
    rw [List.nodup_append]
    refine ⟨h, by simp [newUser], ?_⟩
    intro a ha
    simp only [List.map, newUser, List.mem_singleton]
    obtain ⟨u, hu, hux⟩ := List.mem_map.mp ha
    intro hax
    have := List.find?_eq_none.mp hf u hu
    simp only [decide_eq_true_eq] at this
    exact this (by rw [hux, hax])

theorem xidsOk_ensureServer (s : Store) (g : Nat) (h : xidsOk s) :
    xidsOk (ensureServerExists s g) := by
  unfold xidsOk
  rw [ensureServer_users]
  exact h

theorem xidsOk_deleteGame (s : Store) (gid : Nat) (h : xidsOk s) : xidsOk (deleteGame s gid) := by
  unfold xidsOk deleteGame
  simp only [List.map_map]
  have : (List.map (User.xid ∘ fun u =>
      if u.game_id = some gid then { u with game_id := none } else u) s.users)
      = s.users.map User.xid := by
    apply List.map_congr_left
    intro a _
    by_cases hg : a.game_id = some gid <;> simp [Function.comp, hg]
  rw [this]
  exact h

theorem refsLt_ensureUser (s : Store) (x : Nat) (h : refsLt s) : refsLt (ensureUserExists s x) := by
  unfold refsLt ensureUserExists at *
  cases findUser s x with
  | some u => exact h
  | none =>
    intro u hu gid hg
    simp only [ensureUser_next]
    rcases List.mem_append.mp hu with hul | hur
    · exact h u hul gid hg
    · simp only [List.mem_singleton] at hur
      rw [hur] at hg
      simp [newUser] at hg

theorem refsLt_ensureServer (s : Store) (g : Nat) (h : refsLt s) :
    refsLt (ensureServerExists s g) := by
  unfold refsLt
  intro u hu gid hg
  rw [ensureServer_users] at hu
  rw [ensureServer_next]
  exact h u hu gid hg

theorem refsLt_updateUser (s : Store) (x : Nat) (f : User → User) (h : refsLt s)
    (hf : ∀ w ∈ s.users, ∀ g', (f w).game_id = some g' → g' < s.nextGameId) :
    refsLt (updateUser s x f) := by
  unfold refsLt updateUser
  intro u hu gid hg
  simp only at hu ⊢
  obtain ⟨w, hw, hweq⟩ := List.mem_map.mp hu
  by_cases hax : w.xid = x
  · rw [if_pos hax] at hweq
    rw [← hweq] at hg
    exact hf w hw gid hg
  · rw [if_neg hax] at hweq
    rw [← hweq] at hg
    exact h w hw gid hg

theorem refsLt_deleteGame (s : Store) (gid' : Nat) (h : refsLt s) : refsLt (deleteGame s gid') := by
  unfold refsLt deleteGame
  intro u hu gid hg
  simp only at hu ⊢
  obtain ⟨w, hw, hweq⟩ := List.mem_map.mp hu
  by_cases hgw : w.game_id = some gid'
  · rw [if_pos hgw] at hweq
    rw [← hweq] at hg
    simp at hg
  · rw [if_neg hgw] at hweq
    rw [← hweq] at hg
    exact h w hw gid hg

theorem map_gid_updateGame (s : Store) (gid : Nat) (f : Game → Game)
    (hf : ∀ g, (f g).id = g.id) :
    ((updateGame s gid f).games.map Game.id) = s.games.map Game.id := by
  unfold updateGame
  rw [List.map_map]
  apply List.map_congr_left
  intro a _
  by_cases hag : a.id = gid <;> simp [Function.comp, hag, hf]

theorem gidsOk_updateGame (s : Store) (gid : Nat) (f : Game → Game)
    (hf : ∀ g, (f g).id = g.id) (h : gidsOk s) : gidsOk (updateGame s gid f) := by
  unfold gidsOk
  rw [map_gid_updateGame s gid f hf]
  exact h

theorem gidsLt_updateGame (s : Store) (gid : Nat) (f : Game → Game)
    (hf : ∀ g, (f g).id = g.id) (h : gidsLt s) : gidsLt (updateGame s gid f) := by
  unfold gidsLt updateGame
  intro g hg
  simp only at hg ⊢
  obtain ⟨w, hw, hweq⟩ := List.mem_map.mp hg
  by_cases hwg : w.id = gid
  · rw [if_pos hwg] at hweq
    rw [← hweq, hf w]
    exact h w hw
  · rw [if_neg hwg] at hweq
    rw [← hweq]
    exact h w hw

theorem gidsOk_deleteGame (s : Store) (gid : Nat) (h : gidsOk s) : gidsOk (deleteGame s gid) := by
  unfold gidsOk deleteGame
  exact ((s.games.filter_sublist).map Game.id).nodup h

theorem gidsLt_deleteGame (s : Store) (gid : Nat) (h : gidsLt s) : gidsLt (deleteGame s gid) := by
  unfold gidsLt deleteGame
  intro g hg
  simp only at hg ⊢
  exact h g (List.mem_of_mem_filter hg)

theorem countsOk_mono (s s' : Store) (hg : s'.games = s.games)
    (hc : ∀ gid, memberCount s' gid ≤ memberCount s gid) (h : countsOk s) : countsOk s' := by
  intro g hgm
  rw [hg] at hgm
  obtain ⟨hw, hs⟩ := h g hgm
  have := hc g.id
  constructor
  · omega
  · intro hp
    have := hs hp
    omega

theorem countsOk_deleteGame (s : Store) (gid : Nat) (h : countsOk s) :
    countsOk (deleteGame s gid) := by
  intro g hgm
  have hgm' : g ∈ s.games := List.mem_of_mem_filter hgm
  obtain ⟨hw, hs⟩ := h g hgm'
  have := memberCount_deleteGame_le s gid g.id
  constructor
  · omega
  · intro hp
    have := hs hp
    omega

theorem countsOk_updateGame_keep (s : Store) (gid : Nat) (f : Game → Game)
    (hid : ∀ g, (f g).id = g.id) (hst : ∀ g, (f g).status = g.status)
    (hsz : ∀ g, (f g).size = g.size) (h : countsOk s) : countsOk (updateGame s gid f) := by
  intro g hgm
  unfold updateGame at hgm
  simp only at hgm
  obtain ⟨w, hw, hweq⟩ := List.mem_map.mp hgm
  rw [memberCount_updateGame]
  obtain ⟨hwk, hws⟩ := h w hw
  by_cases hwg : w.id = gid
  · rw [if_pos hwg] at hweq
    rw [← hweq, hid w, hst w, hsz w]
    exact ⟨hwk, hws⟩
  · rw [if_neg hwg] at hweq
    rw [← hweq]
    exact ⟨hwk, hws⟩

theorem StoreInv_ensureServer (s : Store) (g : Nat) (h : StoreInv s) :
    StoreInv (ensureServerExists s g) := by
  obtain ⟨h1, h2, h3, h4, h5⟩ := h
  refine ⟨xidsOk_ensureServer s g h1, ?_, ?_, refsLt_ensureServer s g h4, ?_⟩
  · unfold gidsOk
    rw [ensureServer_games]
    exact h2
  · unfold gidsLt
    intro gg hg
    rw [ensureServer_games] at hg
    rw [ensureServer_next]
    exact h3 gg hg
  · apply countsOk_mono _ _ (ensureServer_games s g)
      (fun gid => le_of_eq (memberCount_ensureServer s g gid))
    intro gg hg
    exact h5 gg hg

theorem StoreInv_ensureUser (s : Store) (x : Nat) (h : StoreInv s) :
    StoreInv (ensureUserExists s x) := by
  obtain ⟨h1, h2, h3, h4, h5⟩ := h
  refine ⟨xidsOk_ensureUser s x h1, ?_, ?_, refsLt_ensureUser s x h4, ?_⟩
  · unfold gidsOk
    rw [ensureUser_games]
    exact h2
  · unfold gidsLt
    intro gg hg
    rw [ensureUser_games] at hg
    rw [ensureUser_next]
    exact h3 gg hg
  · apply countsOk_mono _ _ (ensureUser_games s x)
      (fun gid => le_of_eq (memberCount_ensureUser s x gid))
    intro gg hg
    exact h5 gg hg

theorem StoreInv_setNone (s : Store) (x : Nat) (h : StoreInv s) :
    StoreInv (setUserGame s x none) := by
  obtain ⟨h1, h2, h3, h4, h5⟩ := h
  refine ⟨xidsOk_updateUser s x _ (fun w => rfl) h1, h2, h3, ?_, ?_⟩
  · apply refsLt_updateUser s x _ h4
    intro w _ g' hg'
    simp at hg'
  · apply countsOk_mono s (setUserGame s x none) rfl ?_ h5
    intro gid
    apply memberCount_updateUser_ne
    intro w
    simp

theorem StoreInv_deleteGame (s : Store) (gid : Nat) (h : StoreInv s) :
    StoreInv (deleteGame s gid) := by
  obtain ⟨h1, h2, h3, h4, h5⟩ := h
  exact ⟨xidsOk_deleteGame s gid h1, gidsOk_deleteGame s gid h2, gidsLt_deleteGame s gid h3,
    refsLt_deleteGame s gid h4, countsOk_deleteGame s gid h5⟩

theorem StoreInv_updateGame_keep (s : Store) (gid : Nat) (f : Game → Game)
    (hid : ∀ g, (f g).id = g.id) (hst : ∀ g, (f g).status = g.status)
    (hsz : ∀ g, (f g).size = g.size) (h : StoreInv s) : StoreInv (updateGame s gid f) := by
  obtain ⟨h1, h2, h3, h4, h5⟩ := h
  refine ⟨h1, gidsOk_updateGame s gid f hid h2, gidsLt_updateGame s gid f hid h3, ?_, ?_⟩
  · unfold refsLt at *
    intro u hu g' hg'
    simp only [updateGame_users, updateGame_next] at *
    exact h4 u hu g' hg'
  · exact countsOk_updateGame_keep s gid f hid hst hsz h5

/-! Lemmas about the member-fetch loop of the fill evaluation. -/

def fetchStep (fetchOk : Nat → Bool) (acc : Store × List Nat) (x : Nat) : Store × List Nat :=
  if fetchOk x then (acc.1, acc.2 ++ [x]) else (setUserGame acc.1 x none, acc.2)

theorem fetchLoop_eq (fetchOk : Nat → Bool) (ms : List Nat) (s : Store) :
    fetchLoop fetchOk ms s = ms.foldl (fetchStep fetchOk) (s, []) := rfl

theorem fetchFold_count_le (fetchOk : Nat → Bool) (gid : Nat) :
    ∀ (ms : List Nat) (acc : Store × List Nat),
      memberCount ((ms.foldl (fetchStep fetchOk) acc).1) gid ≤ memberCount acc.1 gid := by
  intro ms
  induction ms with
  | nil => intro acc; exact le_refl _
  | cons x ms ih =>
    intro acc
    rw [List.foldl_cons]
    refine le_trans (ih (fetchStep fetchOk acc x)) ?_
    unfold fetchStep
    by_cases hfx : fetchOk x
    · rw [if_pos hfx]
    · rw [if_neg hfx]
      exact memberCount_updateUser_ne acc.1 x _ gid (fun w => by simp)

theorem fetchFold_games (fetchOk : Nat → Bool) :
    ∀ (ms : List Nat) (acc : Store × List Nat),
      ((ms.foldl (fetchStep fetchOk) acc).1).games = acc.1.games := by
  intro ms
  induction ms with
  | nil => intro acc; rfl
  | cons x ms ih =>
    intro acc
    rw [List.foldl_cons, ih]
    unfold fetchStep
    by_cases hfx : fetchOk x
    · rw [if_pos hfx]
    · rw [if_neg hfx]; rfl

theorem fetchFold_next (fetchOk : Nat → Bool) :
    ∀ (ms : List Nat) (acc : Store × List Nat),
      ((ms.foldl (fetchStep fetchOk) acc).1).nextGameId = acc.1.nextGameId := by
  intro ms
  induction ms with
  | nil => intro acc; rfl
  | cons x ms ih =>
    intro acc
    rw [List.foldl_cons, ih]
    unfold fetchStep
    by_cases hfx : fetchOk x
    · rw [if_pos hfx]
    · rw [if_neg hfx]; rfl

theorem fetchFold_xid_map (fetchOk : Nat → Bool) :
    ∀ (ms : List Nat) (acc : Store × List Nat),
      ((ms.foldl (fetchStep fetchOk) acc).1).users.map User.xid = acc.1.users.map User.xid := by
  intro ms
  induction ms with
  | nil => intro acc; rfl
  | cons x ms ih =>
    intro acc
    rw [List.foldl_cons, ih]
    unfold fetchStep
    by_cases hfx : fetchOk x
    · rw [if_pos hfx]
    · rw [if_neg hfx]
      exact map_xid_updateUser acc.1 x _ (fun w => rfl)

theorem fetchFold_refsLt (fetchOk : Nat → Bool) :
    ∀ (ms : List Nat) (acc : Store × List Nat), refsLt acc.1 →
      refsLt ((ms.foldl (fetchStep fetchOk) acc).1) := by
  intro ms
  induction ms with
  | nil => intro acc h; exact h
  | cons x ms ih =>
    intro acc h
    rw [List.foldl_cons]
    apply ih
    unfold fetchStep
    by_cases hfx : fetchOk x
    · rw [if_pos hfx]; exact h
    · rw [if_neg hfx]
      exact refsLt_updateUser acc.1 x _ h (fun w _ g' hg' => by simp at hg')

theorem fetchFold_lt (fetchOk : Nat → Bool) (gid : Nat) :
    ∀ (ms : List Nat) (acc : Store × List Nat),
      (∀ x ∈ ms, ∃ u ∈ acc.1.users, u.xid = x ∧ u.game_id = some gid) →
      (∃ x ∈ ms, fetchOk x = false) →
      memberCount ((ms.foldl (fetchStep fetchOk) acc).1) gid < memberCount acc.1 gid := by
  intro ms
  induction ms with
  | nil => intro acc _ hwit; simp at hwit
  | cons x ms ih =>
    intro acc hpt hwit
    rw [List.foldl_cons]
    by_cases hfx : fetchOk x
    · have hstep : fetchStep fetchOk acc x = (acc.1, acc.2 ++ [x]) := by
        unfold fetchStep; rw [if_pos hfx]
      rw [hstep]
      obtain ⟨w, hw, hwf⟩ := hwit
      rcases List.mem_cons.mp hw with rfl | hwl
      · rw [hfx] at hwf; cases hwf
      · exact ih (acc.1, acc.2 ++ [x])
          (fun y hy => hpt y (List.mem_cons_of_mem _ hy)) ⟨w, hwl, hwf⟩
    · have hstep : fetchStep fetchOk acc x = (setUserGame acc.1 x none, acc.2) := by
        unfold fetchStep; rw [if_neg hfx]
      rw [hstep]
      have hlt : memberCount (setUserGame acc.1 x none) gid < memberCount acc.1 gid :=
        memberCount_setNone_lt acc.1 x gid (hpt x (List.mem_cons_self x ms))
      have hle : memberCount ((ms.foldl (fetchStep fetchOk) (setUserGame acc.1 x none, acc.2)).1) gid
          ≤ memberCount (setUserGame acc.1 x none) gid :=
        fetchFold_count_le fetchOk gid ms (setUserGame acc.1 x none, acc.2)
      omega

theorem fetchFold_all_found (fetchOk : Nat → Bool) :
    ∀ (ms : List Nat) (acc : Store × List Nat), (∀ x ∈ ms, fetchOk x = true) →
      ms.foldl (fetchStep fetchOk) acc = (acc.1, acc.2 ++ ms) := by
  intro ms
  induction ms with
  | nil => intro acc _; simp
  | cons x ms ih =>
    intro acc hall
    rw [List.foldl_cons]
    have hstep : fetchStep fetchOk acc x = (acc.1, acc.2 ++ [x]) := by
      unfold fetchStep; rw [if_pos (hall x (List.mem_cons_self x ms))]
    rw [hstep, ih (acc.1, acc.2 ++ [x]) (fun y hy => hall y (List.mem_cons_of_mem _ hy))]
    simp

theorem dmAll_commits (dmOk : Nat → Bool) (title : String) (found : List Nat) (e : Exec) :
    (dmAll dmOk title found e).commits = e.commits := by
  unfold dmAll
  induction found generalizing e with
  | nil => rfl
  | cons x l ih =>
    simp only [List.foldl_cons]
    rw [ih]
    by_cases h1 : e.err.isSome <;> by_cases h2 : dmOk x <;> simp [h1, h2]

theorem fillTransition_inv (messageX : Nat) (fetchOk dmOk : Nat → Bool) (gid : Nat) (e : Exec)
    (hx : xidsOk e.cur) (hgn : gidsOk e.cur) (hgl : gidsLt e.cur) (hrl : refsLt e.cur)
    (hweak : ∀ g' ∈ e.cur.games, (memberCount e.cur g'.id : Int) ≤ g'.size)
    (hstrict : ∀ g' ∈ e.cur.games, g'.status = "pending" → g'.id ≠ gid →
      (memberCount e.cur g'.id : Int) < g'.size)
    (hpend : ∀ g' ∈ e.cur.games, g'.id = gid → g'.status = "pending")
    (hcm : e.committed = e.cur) :
    StoreInv (fillTransition messageX fetchOk dmOk gid e).committed ∧
    ∀ c ∈ (fillTransition messageX fetchOk dmOk gid e).commits, c ∈ e.commits ∨ Weak c := by
  unfold fillTransition
  cases hfg : findGame e.cur gid with
  | none =>
    have hnog : ∀ g' ∈ e.cur.games, g'.id ≠ gid := by
      intro g' hg' hid
      have := List.find?_eq_none.mp hfg g' hg'
      simp [hid] at this
    constructor
    · rw [hcm]
      refine ⟨hx, hgn, hgl, hrl, ?_⟩
      intro g' hg'
      exact ⟨hweak g' hg', fun hp => hstrict g' hg' hp (hnog g' hg')⟩
    · intro c hc
      exact Or.inl hc
  | some g =>
    have hgmem : g ∈ e.cur.games := List.mem_of_find?_eq_some hfg
    have hgid : g.id = gid := by have := List.find?_some hfg; simpa using this
    have hgpend : g.status = "pending" := hpend g hgmem hgid
    have huniq : ∀ w ∈ e.cur.games, w.id = gid → w = g := by
      intro w hw hwid
      exact List.inj_on_of_nodup_map hgn hw hgmem (by rw [hwid, hgid])
    simp only [hfg]
    set ms := (membersOf e.cur gid).map (fun u => u.xid) with hms
    have hmslen : ms.length = memberCount e.cur gid := by
      rw [hms]
      unfold membersOf memberCount
      rw [List.length_map, List.countP_eq_length_filter]
    have hpt : ∀ x ∈ ms, ∃ u ∈ e.cur.users, u.xid = x ∧ u.game_id = some gid := by
      intro x hxm
      rw [hms] at hxm
      obtain ⟨u, hu, hux⟩ := List.mem_map.mp hxm
      unfold membersOf at hu
      have hmem := List.mem_filter.mp hu
      refine ⟨u, hmem.1, hux, by simpa using hmem.2⟩
    by_cases hsz : ((ms.length : Int) = g.size)
    · simp only [hsz, if_true]
      have hg5 : (fetchLoop fetchOk ms e.cur).1.games = e.cur.games := by
        rw [fetchLoop_eq]; exact fetchFold_games fetchOk ms (e.cur, [])
      have hn5 : (fetchLoop fetchOk ms e.cur).1.nextGameId = e.cur.nextGameId := by
        rw [fetchLoop_eq]; exact fetchFold_next fetchOk ms (e.cur, [])
      have hx5 : xidsOk (fetchLoop fetchOk ms e.cur).1 := by
        unfold xidsOk
        rw [fetchLoop_eq, fetchFold_xid_map fetchOk ms (e.cur, [])]
        exact hx
      have hr5 : refsLt (fetchLoop fetchOk ms e.cur).1 := by
        have h0 : refsLt ((fetchLoop fetchOk ms e.cur).1) := by
          rw [fetchLoop_eq]
          exact fetchFold_refsLt fetchOk ms (e.cur, []) hrl
        exact h0
      have hc5 : ∀ gid', memberCount (fetchLoop fetchOk ms e.cur).1 gid'
          ≤ memberCount e.cur gid' := by
        intro gid'
        rw [fetchLoop_eq]
        exact fetchFold_count_le fetchOk gid' ms (e.cur, [])
      split
      · rename_i hfnd
        have hS6 : StoreInv (updateGame (fetchLoop fetchOk ms e.cur).1 gid
            (fun g => { g with status := "started" })) := by
          refine ⟨?_, ?_, ?_, ?_, ?_⟩
          · unfold xidsOk
            rw [updateGame_users]
            exact hx5
          · apply gidsOk_updateGame
            · exact fun _ => rfl
            · unfold gidsOk
              rw [hg5]
              exact hgn
          · apply gidsLt_updateGame
            · exact fun _ => rfl
            · unfold gidsLt
              intro gg hgg
              rw [hg5] at hgg
              rw [hn5]
              exact hgl gg hgg
          · unfold refsLt at *
            intro u hu g' hg'
            simp only [updateGame_users, updateGame_next] at *
            exact hr5 u hu g' hg'
          · intro g' hg'
            unfold updateGame at hg'
            simp only at hg'
            obtain ⟨w, hw, hweq⟩ := List.mem_map.mp hg'
            rw [hg5] at hw
            rw [memberCount_updateGame]
            by_cases hwg : w.id = gid
            · have hwgg : w = g := huniq w hw hwg
              rw [if_pos hwg] at hweq
              subst hweq
              constructor
              · simp only [hwgg]
                have := hc5 g.id
                rw [hgid] at this ⊢
                have hcc : (memberCount e.cur gid : Int) = g.size := by
                  rw [← hmslen]
                  exact hsz
                omega
              · intro hp
                simp at hp
            · rw [if_neg hwg] at hweq
              subst hweq
              have hle := hc5 w.id
              constructor
              · have := hweak w hw
                omega
              · intro hp
                have := hstrict w hw hp hwg
                omega
        have hW6 : Weak (updateGame (fetchLoop fetchOk ms e.cur).1 gid
            (fun g => { g with status := "started" })) := hS6.weak
        have hComm : ∀ c ∈ e.commits ++ [updateGame (fetchLoop fetchOk ms e.cur).1 gid
            (fun g => { g with status := "started" })], c ∈ e.commits ∨ Weak c := by
          intro c hc
          rcases List.mem_append.mp hc with h | h
          · exact Or.inl h
          · simp only [List.mem_singleton] at h
            subst h
            exact Or.inr hW6
        split
        · exact ⟨hS6, hComm⟩
        · split
          · exact ⟨hS6, hComm⟩
          · split
            · constructor
              · simpa only [dmAll_committed, commit_committed, upd_cur] using hS6
              · intro c hc
                simp only [dmAll_commits, commit_commits, upd_commits] at hc
                exact hComm c hc
            · split
              · constructor
                · simpa only [fail_committed, dmAll_committed, commit_committed, upd_cur] using hS6
                · intro c hc
                  simp only [fail_commits, dmAll_commits, commit_commits, upd_commits] at hc
                  exact hComm c hc
              · constructor
                · simpa only [act_committed, dmAll_committed, commit_committed, upd_cur] using hS6
                · intro c hc
                  simp only [act_commits, dmAll_commits, commit_commits, upd_commits] at hc
                  exact hComm c hc
      · rename_i hfnd
        have hdrop : ∃ x ∈ ms, fetchOk x = false := by
          by_contra hall
          push_neg at hall
          have hall' : ∀ x ∈ ms, fetchOk x = true := by
            intro x hxm
            have := hall x hxm
            simpa using this
          have := fetchFold_all_found fetchOk ms (e.cur, []) hall'
          rw [fetchLoop_eq] at hfnd
          rw [this] at hfnd
          simp only [List.nil_append] at hfnd
          exact hfnd hsz
        have hlt5 : memberCount (fetchLoop fetchOk ms e.cur).1 gid < memberCount e.cur gid := by
          rw [fetchLoop_eq]
          exact fetchFold_lt fetchOk gid ms (e.cur, []) hpt hdrop
        have hS5 : StoreInv (fetchLoop fetchOk ms e.cur).1 := by
          refine ⟨hx5, ?_, ?_, hr5, ?_⟩
          · unfold gidsOk
            rw [hg5]
            exact hgn
          · unfold gidsLt
            intro gg hgg
            rw [hg5] at hgg
            rw [hn5]
            exact hgl gg hgg
          · intro g' hg'
            rw [hg5] at hg'
            by_cases hwg : g'.id = gid
            · have hgg : g' = g := huniq g' hg' hwg
              have hcc : (memberCount e.cur gid : Int) = g.size := by
                rw [← hmslen]
                exact hsz
              have := hlt5
              constructor
              · rw [hwg, hgg]
                omega
              · intro _
                rw [hwg, hgg]
                omega
            · have hle := hc5 g'.id
              constructor
              · have := hweak g' hg'
                omega
              · intro hp
                have := hstrict g' hg' hp hwg
                omega
        have hW5 : Weak (fetchLoop fetchOk ms e.cur).1 := hS5.weak
        have hComm : ∀ c ∈ e.commits ++ [(fetchLoop fetchOk ms e.cur).1],
            c ∈ e.commits ∨ Weak c := by
          intro c hc
          rcases List.mem_append.mp hc with h | h
          · exact Or.inl h
          · simp only [List.mem_singleton] at h
            subst h
            exact Or.inr hW5
        split
        · exact ⟨hS5, hComm⟩
        · split
          · constructor
            · simpa only [fail_committed, commit_committed] using hS5
            · intro c hc
              simp only [fail_commits, commit_commits] at hc
              exact hComm c hc
          · constructor
            · simpa only [act_committed, commit_committed] using hS5
            · intro c hc
              simp only [act_commits, commit_commits] at hc
              exact hComm c hc
    · simp only [hsz, if_false]
      have hzero : ¬ (((([] : List Nat)).length : Int) = g.size) := by
        simp only [List.length_nil, Int.natCast_zero]
        intro h0
        have hwk := hweak g hgmem
        rw [hgid] at hwk
        rw [hmslen] at hsz
        omega
      rw [if_neg hzero]
      have hS4 : StoreInv e.cur := by
        refine ⟨hx, hgn, hgl, hrl, ?_⟩
        intro g' hg'
        by_cases hwg : g'.id = gid
        · have hgg : g' = g := huniq g' hg' hwg
          subst hgg
          constructor
          · exact hweak g' hg'
          · intro _
            have hwk := hweak g' hg'
            rw [hmslen] at hsz
            rw [hwg] at hwk ⊢
            omega
        · exact ⟨hweak g' hg', fun hp => hstrict g' hg' hp hwg⟩
      have hW4 : Weak e.cur := hS4.weak
      have hComm : ∀ c ∈ e.commits ++ [e.cur], c ∈ e.commits ∨ Weak c := by
        intro c hc
        rcases List.mem_append.mp hc with h | h
        · exact Or.inl h
        · simp only [List.mem_singleton] at h
          subst h
          exact Or.inr hW4
      split
      · exact ⟨hS4, hComm⟩
      · split
        · constructor
          · simpa only [fail_committed, commit_committed] using hS4
          · intro c hc
            simp only [fail_commits, commit_commits] at hc
            exact hComm c hc
        · constructor
          · simpa only [act_committed, commit_committed] using hS4
          · intro c hc
            simp only [act_commits, commit_commits] at hc
            exact hComm c hc

theorem StoreInv_touch (s : Store) (gid : Nat) (now expiresAt : Int) (h : StoreInv s) :
    StoreInv (updateGame s gid
      (fun g => { g with updated_at := some now, expires_at := some expiresAt })) :=
  StoreInv_updateGame_keep s gid _ (fun _ => rfl) (fun _ => rfl) (fun _ => rfl) h

theorem StoreInv_confirm (s : Store) (x : Nat) (h : StoreInv s) :
    StoreInv (updateUser s x (fun u => { u with invite_confirmed := true })) := by
  obtain ⟨h1, h2, h3, h4, h5⟩ := h
  refine ⟨xidsOk_updateUser s x _ (fun w => rfl) h1, h2, h3, ?_, ?_⟩
  · apply refsLt_updateUser s x _ h4
    intro w hw g' hg'
    exact h4 w hw g' hg'
  · refine countsOk_mono s _ rfl ?_ h5
    intro gid
    exact le_of_eq (memberCount_updateUser_eq s x _ gid (fun w => rfl))

theorem StoreInv_declineClear (s : Store) (x : Nat) (h : StoreInv s) :
    StoreInv (updateUser s x (fun u => { u with invited := false, game_id := none })) := by
  obtain ⟨h1, h2, h3, h4, h5⟩ := h
  refine ⟨xidsOk_updateUser s x _ (fun w => rfl) h1, h2, h3, ?_, ?_⟩
  · apply refsLt_updateUser s x _ h4
    intro w _ g' hg'
    simp at hg'
  · refine countsOk_mono s _ rfl ?_ h5
    intro gid
    apply memberCount_updateUser_ne
    intro w
    simp

theorem StoreInv_setMsg (s : Store) (gid m : Nat) (h : StoreInv s) :
    StoreInv (updateGame s gid (fun g => { g with message_xid := some m })) :=
  StoreInv_updateGame_keep s gid _ (fun _ => rfl) (fun _ => rfl) (fun _ => rfl) h

theorem reaction_preserves (emoji : Emoji) (guildX : Nat) (chanName : String)
    (messageX authorX : Nat) (now : Int) (fetchOk dmOk : Nat → Bool) (st : Store)
    (h : StoreInv st) :
    StoreInv (onRawReactionAdd emoji guildX chanName messageX authorX now
        fetchOk dmOk st).committed ∧
    ∀ c ∈ (onRawReactionAdd emoji guildX chanName messageX authorX now fetchOk dmOk st).commits,
      Weak c := by
  unfold onRawReactionAdd
  simp only [start_cur, upd_cur, commit_cur, act_cur]
  have hS1 : StoreInv (ensureServerExists st guildX) := StoreInv_ensureServer st guildX h
  have hE0 : StoreInv (((Exec.start st).upd (fun s => ensureServerExists s guildX)).commit).committed ∧
      ∀ c ∈ (((Exec.start st).upd (fun s => ensureServerExists s guildX)).commit).commits,
        Weak c := by
    constructor
    · simpa using hS1
    · intro c hc
      simp only [commit_commits, upd_commits, start_commits, List.nil_append,
        List.mem_singleton, upd_cur, start_cur] at hc
      subst hc
      exact hS1.weak
  by_cases hba : botAllowedIn (getServer (ensureServerExists st guildX) guildX) chanName
  · rw [if_neg (by simp [hba])]
    rcases hfm : findGameByMessage (ensureServerExists st guildX) messageX with _ | game
    · exact hE0
    · simp only []
      by_cases hstp : game.status = "pending"
      · rw [if_neg (by simp [hstp])]
        have hS2 : StoreInv (ensureUserExists (ensureServerExists st guildX) authorX) := StoreInv_ensureUser _ authorX hS1
        have hE2commits : ∀ c ∈ ((((Exec.start st).upd
            (fun s => ensureServerExists s guildX)).commit.upd
            (fun s => ensureUserExists s authorX)).commit).commits, Weak c := by
          intro c hc
          simp only [commit_commits, upd_commits, start_commits, List.nil_append, upd_cur,
            start_cur, commit_cur] at hc
          rcases List.mem_append.mp hc with h1 | h1
          · simp only [List.mem_singleton] at h1
            subst h1
            exact hS1.weak
          · simp only [List.mem_singleton] at h1
            subst h1
            exact hS2.weak
        have hgmem2 : game ∈ (ensureUserExists (ensureServerExists st guildX) authorX).games := by
          rw [ensureUser_games]
          exact List.mem_of_find?_eq_some hfm
        have huniq2 : ∀ w ∈ (ensureUserExists (ensureServerExists st guildX) authorX).games, w.id = game.id → w = game := by
          intro w hw hwid
          exact List.inj_on_of_nodup_map hS2.2.1 hw hgmem2 hwid
        cases emoji with
        | plus =>
          simp only []
          by_cases hmem : ((membersOf (ensureUserExists (ensureServerExists st guildX) authorX)
              game.id).any (fun gu => authorX = gu.xid)) = true
          · rw [if_pos hmem]
            exact ⟨by simpa using hS2, hE2commits⟩
          · rw [if_neg (by simp [hmem])]
            have hx3 : xidsOk (setUserGame (ensureUserExists (ensureServerExists st guildX) authorX) authorX (some game.id)) :=
              xidsOk_updateUser (ensureUserExists (ensureServerExists st guildX) authorX) authorX _ (fun w => rfl) hS2.1
            have hx4 : xidsOk (updateGame (setUserGame (ensureUserExists (ensureServerExists st guildX) authorX) authorX (some game.id)) game.id (fun g => { g with updated_at := some now, expires_at := some (now + (getServer (ensureServerExists st guildX) guildX).expire) })) := by
              unfold xidsOk
              rw [updateGame_users]
              exact hx3
            have hgn4 : gidsOk (updateGame (setUserGame (ensureUserExists (ensureServerExists st guildX) authorX) authorX (some game.id)) game.id (fun g => { g with updated_at := some now, expires_at := some (now + (getServer (ensureServerExists st guildX) guildX).expire) })) := by
              apply gidsOk_updateGame
              · exact fun _ => rfl
              · exact hS2.2.1
            have hgl4 : gidsLt (updateGame (setUserGame (ensureUserExists (ensureServerExists st guildX) authorX) authorX (some game.id)) game.id (fun g => { g with updated_at := some now, expires_at := some (now + (getServer (ensureServerExists st guildX) guildX).expire) })) := by
              apply gidsLt_updateGame
              · exact fun _ => rfl
              · exact hS2.2.2.1
            have hr3 : refsLt (setUserGame (ensureUserExists (ensureServerExists st guildX) authorX) authorX (some game.id)) := by
              apply refsLt_updateUser (ensureUserExists (ensureServerExists st guildX) authorX) authorX _ hS2.2.2.2.1
              intro w _ g' hg'
              have : g' = game.id := by
                simpa using hg'.symm
              subst this
              exact hS2.2.2.1 game hgmem2
            have hr4 : refsLt (updateGame (setUserGame (ensureUserExists (ensureServerExists st guildX) authorX) authorX (some game.id)) game.id (fun g => { g with updated_at := some now, expires_at := some (now + (getServer (ensureServerExists st guildX) guildX).expire) })) := by
              unfold refsLt at *
              intro u hu g' hg'
              simp only [updateGame_users, updateGame_next] at *
              exact hr3 u hu g' hg'
            have hsucc : memberCount (setUserGame (ensureUserExists (ensureServerExists st guildX) authorX) authorX (some game.id)) game.id
                ≤ memberCount (ensureUserExists (ensureServerExists st guildX) authorX) game.id + 1 :=
              memberCount_updateUser_succ (ensureUserExists (ensureServerExists st guildX) authorX) authorX _ game.id hS2.1
            have hother : ∀ gid', gid' ≠ game.id →
                memberCount (setUserGame (ensureUserExists (ensureServerExists st guildX) authorX) authorX (some game.id)) gid' ≤ memberCount (ensureUserExists (ensureServerExists st guildX) authorX) gid' := by
              intro gid' hne
              apply memberCount_updateUser_ne
              intro w
              show ¬ ((some game.id : Option Nat) = some gid')
              simp only [Option.some.injEq]
              exact fun hq => hne hq.symm
            have hstrict2 : (memberCount (ensureUserExists (ensureServerExists st guildX) authorX) game.id : Int) < game.size :=
              (hS2.2.2.2.2 game hgmem2).2 hstp
            have hweak4 : ∀ g' ∈ (updateGame (setUserGame (ensureUserExists (ensureServerExists st guildX) authorX) authorX (some game.id)) game.id (fun g => { g with updated_at := some now, expires_at := some (now + (getServer (ensureServerExists st guildX) guildX).expire) })).games,
                (memberCount (updateGame (setUserGame (ensureUserExists (ensureServerExists st guildX) authorX) authorX (some game.id)) game.id (fun g => { g with updated_at := some now, expires_at := some (now + (getServer (ensureServerExists st guildX) guildX).expire) })) g'.id : Int) ≤ g'.size := by
              intro g' hg'
              have hg'' : g' ∈ (List.map (fun g => if g.id = game.id then ({ g with updated_at := some now, expires_at := some (now + (getServer (ensureServerExists st guildX) guildX).expire) } : Game) else g) (ensureUserExists (ensureServerExists st guildX) authorX).games) := hg'
              obtain ⟨w, hw, hweq⟩ := List.mem_map.mp hg''
              by_cases hwg : w.id = game.id
              · have hwgame : w = game := huniq2 w hw hwg
                rw [if_pos hwg] at hweq
                subst hweq
                show (memberCount (setUserGame (ensureUserExists (ensureServerExists st guildX) authorX) authorX (some game.id)) w.id : Int) ≤ w.size
                rw [hwgame]
                omega
              · rw [if_neg hwg] at hweq
                subst hweq
                show (memberCount (setUserGame (ensureUserExists (ensureServerExists st guildX) authorX) authorX (some game.id)) w.id : Int) ≤ w.size
                have h1 := hother w.id hwg
                have h2 := (hS2.2.2.2.2 w hw).1
                omega
            have hstrict4 : ∀ g' ∈ (updateGame (setUserGame (ensureUserExists (ensureServerExists st guildX) authorX) authorX (some game.id)) game.id (fun g => { g with updated_at := some now, expires_at := some (now + (getServer (ensureServerExists st guildX) guildX).expire) })).games, g'.status = "pending" →
                g'.id ≠ game.id → (memberCount (updateGame (setUserGame (ensureUserExists (ensureServerExists st guildX) authorX) authorX (some game.id)) game.id (fun g => { g with updated_at := some now, expires_at := some (now + (getServer (ensureServerExists st guildX) guildX).expire) })) g'.id : Int) < g'.size := by
              intro g' hg' hp hne
              have hg'' : g' ∈ (List.map (fun g => if g.id = game.id then ({ g with updated_at := some now, expires_at := some (now + (getServer (ensureServerExists st guildX) guildX).expire) } : Game) else g) (ensureUserExists (ensureServerExists st guildX) authorX).games) := hg'
              obtain ⟨w, hw, hweq⟩ := List.mem_map.mp hg''
              by_cases hwg : w.id = game.id
              · rw [if_pos hwg] at hweq
                rw [← hweq] at hne
                exact absurd hwg hne
              · rw [if_neg hwg] at hweq
                subst hweq
                show (memberCount (setUserGame (ensureUserExists (ensureServerExists st guildX) authorX) authorX (some game.id)) w.id : Int) < w.size
                have h1 := hother w.id hwg
                have h2 := (hS2.2.2.2.2 w hw).2 hp
                omega
            have hpend4 : ∀ g' ∈ (updateGame (setUserGame (ensureUserExists (ensureServerExists st guildX) authorX) authorX (some game.id)) game.id (fun g => { g with updated_at := some now, expires_at := some (now + (getServer (ensureServerExists st guildX) guildX).expire) })).games, g'.id = game.id →
                g'.status = "pending" := by
              intro g' hg' hgid'
              have hg'' : g' ∈ (List.map (fun g => if g.id = game.id then ({ g with updated_at := some now, expires_at := some (now + (getServer (ensureServerExists st guildX) guildX).expire) } : Game) else g) (ensureUserExists (ensureServerExists st guildX) authorX).games) := hg'
              obtain ⟨w, hw, hweq⟩ := List.mem_map.mp hg''
              by_cases hwg : w.id = game.id
              · have hwgame : w = game := huniq2 w hw hwg
                rw [if_pos hwg] at hweq
                rw [← hweq]
                show w.status = "pending"
                rw [hwgame]
                exact hstp
              · rw [if_neg hwg] at hweq
                rw [← hweq] at hgid'
                exact absurd hgid' hwg
            have hfill := fillTransition_inv messageX fetchOk dmOk game.id
              ((((((Exec.start st).upd (fun s => ensureServerExists s guildX)).commit.upd (fun s => ensureUserExists s authorX)).commit.act (Act.removeReaction messageX Emoji.plus authorX)).upd (fun s => setUserGame s authorX (some game.id))).upd (fun s => updateGame s game.id (fun g => { g with updated_at := some now, expires_at := some (now + (getServer (ensureServerExists st guildX) guildX).expire) }))).commit hx4 hgn4 hgl4 hr4 hweak4 hstrict4 hpend4 rfl
            have hW4 : Weak (updateGame (setUserGame (ensureUserExists (ensureServerExists st guildX) authorX) authorX (some game.id)) game.id (fun g => { g with updated_at := some now, expires_at := some (now + (getServer (ensureServerExists st guildX) guildX).expire) })) := fun g' hg' => hweak4 g' hg'
            have joinCase : StoreInv ((fillTransition messageX fetchOk dmOk game.id
                ((((((Exec.start st).upd (fun s => ensureServerExists s guildX)).commit.upd (fun s => ensureUserExists s authorX)).commit.act (Act.removeReaction messageX Emoji.plus authorX)).upd (fun s => setUserGame s authorX (some game.id))).upd (fun s => updateGame s game.id (fun g => { g with updated_at := some now, expires_at := some (now + (getServer (ensureServerExists st guildX) guildX).expire) }))).commit).committed) ∧
                ∀ c ∈ (fillTransition messageX fetchOk dmOk game.id ((((((Exec.start st).upd (fun s => ensureServerExists s guildX)).commit.upd (fun s => ensureUserExists s authorX)).commit.act (Act.removeReaction messageX Emoji.plus authorX)).upd (fun s => setUserGame s authorX (some game.id))).upd (fun s => updateGame s game.id (fun g => { g with updated_at := some now, expires_at := some (now + (getServer (ensureServerExists st guildX) guildX).expire) }))).commit).commits,
                  Weak c := by
              refine ⟨hfill.1, ?_⟩
              intro c hc
              rcases hfill.2 c hc with hin | hw
              · simp only [commit_commits, upd_commits, act_commits, start_commits,
                  List.nil_append, upd_cur, start_cur, commit_cur, act_cur] at hin
                rcases List.mem_append.mp hin with h1 | h1
                · rcases List.mem_append.mp h1 with h2 | h2
                  · simp only [List.mem_singleton] at h2
                    subst h2
                    exact hS1.weak
                  · simp only [List.mem_singleton] at h2
                    subst h2
                    exact hS2.weak
                · simp only [List.mem_singleton] at h1
                  subst h1
                  exact hW4
              · exact hw
            rcases hcf : (getUser (ensureUserExists (ensureServerExists st guildX) authorX) authorX).game_id.bind
                (findGame (ensureUserExists (ensureServerExists st guildX) authorX)) with _ | g2
            · simp only [hcf]
              rw [if_neg (by simp)]
              exact joinCase
            · simp only [hcf]
              by_cases hgg : g2.id = game.id
              · rw [if_neg (by simp [hgg])]
                exact joinCase
              · rw [if_pos (by simp [hgg])]
                by_cases hdm : dmOk authorX
                · rw [if_pos hdm]
                  exact ⟨by simpa using hS2, hE2commits⟩
                · rw [if_neg hdm]
                  exact ⟨by simpa using hS2, hE2commits⟩
        | minus =>
          simp only []
          by_cases hmem : ((membersOf (ensureUserExists (ensureServerExists st guildX) authorX)
              game.id).any (fun gu => authorX = gu.xid)) = true
          · rw [if_neg (by simp [hmem])]
            have hS4 : StoreInv (setUserGame (updateGame (ensureUserExists (ensureServerExists st guildX) authorX) game.id (fun g => { g with updated_at := some now, expires_at := some (now + (getServer (ensureServerExists st guildX) guildX).expire) })) authorX none) :=
              StoreInv_setNone _ authorX (StoreInv_touch _ game.id _ _ hS2)
            have hCommits : ∀ c ∈ ([(ensureServerExists st guildX)] ++ [(ensureUserExists (ensureServerExists st guildX) authorX)] ++ [(setUserGame (updateGame (ensureUserExists (ensureServerExists st guildX) authorX) game.id (fun g => { g with updated_at := some now, expires_at := some (now + (getServer (ensureServerExists st guildX) guildX).expire) })) authorX none)] : List Store), Weak c := by
              intro c hc
              simp only [List.mem_append, List.mem_singleton] at hc
              rcases hc with (hc | hc) | hc
              · subst hc; exact hS1.weak
              · subst hc; exact hS2.weak
              · subst hc; exact hS4.weak
            split
            · refine ⟨by simpa using hS4, ?_⟩
              intro c hc
              simp only [commit_commits, upd_commits, act_commits, start_commits,
                List.nil_append, upd_cur, start_cur, commit_cur, act_cur] at hc
              exact hCommits c (by simpa using hc)
            · split
              · refine ⟨by simpa using hS4, ?_⟩
                intro c hc
                simp only [fail_commits, commit_commits, upd_commits, act_commits,
                  start_commits, List.nil_append, upd_cur, start_cur, commit_cur, act_cur] at hc
                exact hCommits c (by simpa using hc)
              · refine ⟨by simpa using hS4, ?_⟩
                intro c hc
                simp only [act_commits, fail_commits, commit_commits, upd_commits,
                  start_commits, List.nil_append, upd_cur, start_cur, commit_cur, act_cur] at hc
                exact hCommits c (by simpa using hc)
          · rw [if_pos (by simpa using hmem)]
            exact ⟨by simpa using hS2, hE2commits⟩
      · rw [if_pos (by simp [hstp])]
        exact hE0
  · rw [if_pos (by simp [hba])]
    exact hE0

theorem leave_preserves (authorX : Nat) (chanOk : Bool) (st : Store) (h : StoreInv st) :
    StoreInv (leave authorX chanOk st).committed ∧
    ∀ c ∈ (leave authorX chanOk st).commits, Weak c := by
  unfold leave
  simp only [start_cur, upd_cur]
  by_cases hw : userWaiting (ensureUserExists st authorX)
      (getUser (ensureUserExists st authorX) authorX) = true
  · rw [if_neg (by simp [hw])]
    have hS3 : StoreInv (setUserGame (ensureUserExists st authorX) authorX none) :=
      StoreInv_setNone _ authorX (StoreInv_ensureUser st authorX h)
    cases chanOk with
    | false =>
      rw [if_neg (by simp)]
      split
      · refine ⟨by simpa using hS3, ?_⟩
        intro c hc
        simp only [fail_commits, commit_commits, upd_commits, act_commits, start_commits,
          List.nil_append, List.mem_singleton, upd_cur, start_cur, act_cur] at hc
        subst hc
        exact hS3.weak
      · refine ⟨by simpa using hS3, ?_⟩
        intro c hc
        simp only [fail_commits, commit_commits, upd_commits, act_commits, start_commits,
          List.nil_append, List.mem_singleton, upd_cur, start_cur, act_cur] at hc
        subst hc
        exact hS3.weak
    | true =>
      rw [if_pos rfl]
      split
      · refine ⟨by simpa using hS3, ?_⟩
        intro c hc
        simp only [act_commits, commit_commits, upd_commits, start_commits,
          List.nil_append, List.mem_singleton, upd_cur, start_cur, act_cur] at hc
        subst hc
        exact hS3.weak
      · refine ⟨by simpa using hS3, ?_⟩
        intro c hc
        simp only [act_commits, commit_commits, upd_commits, start_commits,
          List.nil_append, List.mem_singleton, upd_cur, start_cur, act_cur] at hc
        subst hc
        exact hS3.weak
  · rw [if_pos (by simp [hw])]
    cases chanOk with
    | false =>
      rw [if_neg (by simp)]
      exact ⟨h, by intro c hc; simp at hc⟩
    | true =>
      rw [if_pos rfl]
      exact ⟨h, by intro c hc; simp at hc⟩

theorem invite_preserves (authorX : Nat) (choice : String)
    (chanFound dmOk postOk reactOk : Bool) (newMsgId : Nat) (st : Store) (h : StoreInv st) :
    StoreInv (processInviteResponse authorX choice chanFound dmOk postOk reactOk
        newMsgId st).committed ∧
    ∀ c ∈ (processInviteResponse authorX choice chanFound dmOk postOk reactOk
        newMsgId st).commits, Weak c := by
  unfold processInviteResponse
  simp only [start_cur, upd_cur, commit_cur]
  have hS2 : StoreInv (ensureUserExists st authorX) := StoreInv_ensureUser st authorX h
  have hBaseC : ∀ c ∈ (([] : List Store) ++ [(ensureUserExists st authorX)]), Weak c := by
    intro c hc
    simp only [List.nil_append, List.mem_singleton] at hc
    subst hc
    exact hS2.weak
  by_cases hinv : (getUser (ensureUserExists st authorX) authorX).invited = true
  · rw [if_neg (by simp [hinv])]
    by_cases hcfm : (getUser (ensureUserExists st authorX) authorX).invite_confirmed = true
    · rw [if_pos hcfm]
      cases dmOk with
      | false =>
        rw [if_neg (by simp)]
        refine ⟨by simpa using hS2, ?_⟩
        intro c hc
        simp only [fail_commits, commit_commits, upd_commits, start_commits] at hc
        exact hBaseC c hc
      | true =>
        rw [if_pos rfl]
        refine ⟨by simpa using hS2, ?_⟩
        intro c hc
        simp only [act_commits, commit_commits, upd_commits, start_commits] at hc
        exact hBaseC c hc
    · rw [if_neg hcfm]
      by_cases hch : choice = "yes"
      · rw [if_pos hch]
        have hS3 : StoreInv (updateUser (ensureUserExists st authorX) authorX (fun u => { u with invite_confirmed := true })) := StoreInv_confirm _ authorX hS2
        cases dmOk with
        | false =>
          simp only [Bool.false_eq_true, if_false]
          rw [if_pos (by simp)]
          refine ⟨by simpa using hS2, ?_⟩
          intro c hc
          simp only [fail_commits, commit_commits, upd_commits, start_commits] at hc
          exact hBaseC c hc
        | true =>
          rw [if_pos rfl]
          rw [if_neg (by simp)]
          simp only [act_cur, upd_cur, commit_cur, start_cur]
          rcases hgb : (getUser (ensureUserExists st authorX) authorX).game_id.bind
              (fun a => findGame (updateUser (ensureUserExists st authorX) authorX (fun u => { u with invite_confirmed := true })) a) with _ | g
          · simp only [hgb]
            refine ⟨by simpa using hS3, ?_⟩
            intro c hc
            simp only [fail_commits, commit_commits, upd_commits, act_commits, start_commits,
              List.nil_append, upd_cur, start_cur, commit_cur] at hc
            rcases List.mem_append.mp hc with h1 | h1
            · simp only [List.mem_singleton] at h1; subst h1; exact hS2.weak
            · simp only [List.mem_singleton] at h1; subst h1; exact hS3.weak
          · simp only [hgb]
            split
            · cases chanFound with
              | false =>
                rw [if_pos (by simp)]
                have hSd : StoreInv (deleteGame (updateUser (ensureUserExists st authorX) authorX (fun u => { u with invite_confirmed := true })) g.id) :=
                  StoreInv_deleteGame _ g.id hS3
                refine ⟨by simpa using hSd, ?_⟩
                intro c hc
                simp only [commit_commits, upd_commits, act_commits, start_commits,
                  List.nil_append, upd_cur, start_cur, commit_cur, act_cur] at hc
                rcases List.mem_append.mp hc with h1 | h1
                · rcases List.mem_append.mp h1 with h2 | h2
                  · simp only [List.mem_singleton] at h2; subst h2; exact hS2.weak
                  · simp only [List.mem_singleton] at h2; subst h2; exact hS3.weak
                · simp only [List.mem_singleton] at h1; subst h1; exact hSd.weak
              | true =>
                rw [if_neg (by simp)]
                split
                · refine ⟨by simpa using hS3, ?_⟩
                  intro c hc
                  simp only [fail_commits, commit_commits, upd_commits, act_commits,
                    start_commits, List.nil_append, upd_cur, start_cur, commit_cur] at hc
                  rcases List.mem_append.mp hc with h1 | h1
                  · simp only [List.mem_singleton] at h1; subst h1; exact hS2.weak
                  · simp only [List.mem_singleton] at h1; subst h1; exact hS3.weak
                · cases postOk with
                  | false =>
                    rw [if_pos (by simp)]
                    refine ⟨by simpa using hS3, ?_⟩
                    intro c hc
                    simp only [fail_commits, commit_commits, upd_commits, act_commits,
                      start_commits, List.nil_append, upd_cur, start_cur, commit_cur] at hc
                    rcases List.mem_append.mp hc with h1 | h1
                    · simp only [List.mem_singleton] at h1; subst h1; exact hS2.weak
                    · simp only [List.mem_singleton] at h1; subst h1; exact hS3.weak
                  | true =>
                    rw [if_neg (by simp)]
                    have hSm : StoreInv (updateGame (updateUser (ensureUserExists st authorX) authorX (fun u => { u with invite_confirmed := true })) g.id
                        (fun gg => { gg with message_xid := some newMsgId })) :=
                      StoreInv_setMsg _ g.id newMsgId hS3
                    have hCm : ∀ c ∈ (((([] : List Store) ++ [(ensureUserExists st authorX)]) ++ [(updateUser (ensureUserExists st authorX) authorX (fun u => { u with invite_confirmed := true }))]) ++
                        [updateGame (updateUser (ensureUserExists st authorX) authorX (fun u => { u with invite_confirmed := true })) g.id
                          (fun gg => { gg with message_xid := some newMsgId })]), Weak c := by
                      intro c hc
                      rcases List.mem_append.mp hc with h1 | h1
                      · rcases List.mem_append.mp h1 with h2 | h2
                        · simp only [List.nil_append, List.mem_singleton] at h2
                          subst h2; exact hS2.weak
                        · simp only [List.mem_singleton] at h2; subst h2; exact hS3.weak
                      · simp only [List.mem_singleton] at h1; subst h1; exact hSm.weak
                    cases reactOk with
                    | false =>
                      rw [if_neg (by simp)]
                      refine ⟨by simpa using hSm, ?_⟩
                      intro c hc
                      simp only [fail_commits, commit_commits, upd_commits, act_commits,
                        start_commits, upd_cur, start_cur, commit_cur, act_cur] at hc
                      exact hCm c (by simpa using hc)
                    | true =>
                      rw [if_pos rfl]
                      refine ⟨by simpa using hSm, ?_⟩
                      intro c hc
                      simp only [act_commits, fail_commits, commit_commits, upd_commits,
                        start_commits, upd_cur, start_cur, commit_cur, act_cur] at hc
                      exact hCm c (by simpa using hc)
            · refine ⟨by simpa using hS3, ?_⟩
              intro c hc
              simp only [commit_commits, upd_commits, act_commits, start_commits,
                List.nil_append, upd_cur, start_cur, commit_cur] at hc
              rcases List.mem_append.mp hc with h1 | h1
              · simp only [List.mem_singleton] at h1; subst h1; exact hS2.weak
              · simp only [List.mem_singleton] at h1; subst h1; exact hS3.weak
      · rw [if_neg hch]
        have hS3 : StoreInv (updateUser (ensureUserExists st authorX) authorX (fun u => { u with invited := false, game_id := none })) := StoreInv_declineClear _ authorX hS2
        cases dmOk with
        | false =>
          simp only [Bool.false_eq_true, if_false]
          rw [if_pos (by simp)]
          refine ⟨by simpa using hS2, ?_⟩
          intro c hc
          simp only [fail_commits, commit_commits, upd_commits, start_commits] at hc
          exact hBaseC c hc
        | true =>
          rw [if_pos rfl]
          rw [if_neg (by simp)]
          simp only [act_cur, upd_cur, commit_cur, start_cur]
          rcases hgb : (getUser (ensureUserExists st authorX) authorX).game_id.bind
              (fun a => findGame (updateUser (ensureUserExists st authorX) authorX (fun u => { u with invited := false, game_id := none })) a) with _ | g
          · simp only [hgb]
            refine ⟨by simpa using hS3, ?_⟩
            intro c hc
            simp only [fail_commits, commit_commits, upd_commits, act_commits, start_commits,
              List.nil_append, upd_cur, start_cur, commit_cur] at hc
            rcases List.mem_append.mp hc with h1 | h1
            · simp only [List.mem_singleton] at h1; subst h1; exact hS2.weak
            · simp only [List.mem_singleton] at h1; subst h1; exact hS3.weak
          · simp only [hgb]
            split
            · cases chanFound with
              | false =>
                rw [if_pos (by simp)]
                have hSd : StoreInv (deleteGame (updateUser (ensureUserExists st authorX) authorX (fun u => { u with invited := false, game_id := none })) g.id) :=
                  StoreInv_deleteGame _ g.id hS3
                refine ⟨by simpa using hSd, ?_⟩
                intro c hc
                simp only [commit_commits, upd_commits, act_commits, start_commits,
                  List.nil_append, upd_cur, start_cur, commit_cur, act_cur] at hc
                rcases List.mem_append.mp hc with h1 | h1
                · rcases List.mem_append.mp h1 with h2 | h2
                  · simp only [List.mem_singleton] at h2; subst h2; exact hS2.weak
                  · simp only [List.mem_singleton] at h2; subst h2; exact hS3.weak
                · simp only [List.mem_singleton] at h1; subst h1; exact hSd.weak
              | true =>
                rw [if_neg (by simp)]
                split
                · refine ⟨by simpa using hS3, ?_⟩
                  intro c hc
                  simp only [fail_commits, commit_commits, upd_commits, act_commits,
                    start_commits, List.nil_append, upd_cur, start_cur, commit_cur] at hc
                  rcases List.mem_append.mp hc with h1 | h1
                  · simp only [List.mem_singleton] at h1; subst h1; exact hS2.weak
                  · simp only [List.mem_singleton] at h1; subst h1; exact hS3.weak
                · cases postOk with
                  | false =>
                    rw [if_pos (by simp)]
                    refine ⟨by simpa using hS3, ?_⟩
                    intro c hc
                    simp only [fail_commits, commit_commits, upd_commits, act_commits,
                      start_commits, List.nil_append, upd_cur, start_cur, commit_cur] at hc
                    rcases List.mem_append.mp hc with h1 | h1
                    · simp only [List.mem_singleton] at h1; subst h1; exact hS2.weak
                    · simp only [List.mem_singleton] at h1; subst h1; exact hS3.weak
                  | true =>
                    rw [if_neg (by simp)]
                    have hSm : StoreInv (updateGame (updateUser (ensureUserExists st authorX) authorX (fun u => { u with invited := false, game_id := none })) g.id
                        (fun gg => { gg with message_xid := some newMsgId })) :=
                      StoreInv_setMsg _ g.id newMsgId hS3
                    have hCm : ∀ c ∈ (((([] : List Store) ++ [(ensureUserExists st authorX)]) ++ [(updateUser (ensureUserExists st authorX) authorX (fun u => { u with invited := false, game_id := none }))]) ++
                        [updateGame (updateUser (ensureUserExists st authorX) authorX (fun u => { u with invited := false, game_id := none })) g.id
                          (fun gg => { gg with message_xid := some newMsgId })]), Weak c := by
                      intro c hc
                      rcases List.mem_append.mp hc with h1 | h1
                      · rcases List.mem_append.mp h1 with h2 | h2
                        · simp only [List.nil_append, List.mem_singleton] at h2
                          subst h2; exact hS2.weak
                        · simp only [List.mem_singleton] at h2; subst h2; exact hS3.weak
                      · simp only [List.mem_singleton] at h1; subst h1; exact hSm.weak
                    cases reactOk with
                    | false =>
                      rw [if_neg (by simp)]
                      refine ⟨by simpa using hSm, ?_⟩
                      intro c hc
                      simp only [fail_commits, commit_commits, upd_commits, act_commits,
                        start_commits, upd_cur, start_cur, commit_cur, act_cur] at hc
                      exact hCm c (by simpa using hc)
                    | true =>
                      rw [if_pos rfl]
                      refine ⟨by simpa using hSm, ?_⟩
                      intro c hc
                      simp only [act_commits, fail_commits, commit_commits, upd_commits,
                        start_commits, upd_cur, start_cur, commit_cur, act_cur] at hc
                      exact hCm c (by simpa using hc)
            · refine ⟨by simpa using hS3, ?_⟩
              intro c hc
              simp only [commit_commits, upd_commits, act_commits, start_commits,
                List.nil_append, upd_cur, start_cur, commit_cur] at hc
              rcases List.mem_append.mp hc with h1 | h1
              · simp only [List.mem_singleton] at h1; subst h1; exact hS2.weak
              · simp only [List.mem_singleton] at h1; subst h1; exact hS3.weak
  · rw [if_pos (by simp [hinv])]
    cases dmOk with
    | false =>
      rw [if_neg (by simp)]
      refine ⟨by simpa using hS2, ?_⟩
      intro c hc
      simp only [fail_commits, commit_commits, upd_commits, start_commits] at hc
      exact hBaseC c hc
    | true =>
      rw [if_pos rfl]
      refine ⟨by simpa using hS2, ?_⟩
      intro c hc
      simp only [act_commits, commit_commits, upd_commits, start_commits] at hc
      exact hBaseC c hc

/-! Sweep preservation: the sweep cycle never commits mid-run and only clears
references / deletes rows, so the single end commit snapshots an invariant
store. -/

def sweepStep (fetchOk dmOk : Nat → Bool) (e : Exec) (x : Nat) : Exec :=
  if e.err.isSome then e
  else
    let e2 := if fetchOk x then
                (if dmOk x then e.act (.dm x "expired") else e.fail .discordError)
              else e
    if e2.err.isSome then e2 else e2.upd (fun s => setUserGame s x none)

theorem sweepStep_keep (fetchOk dmOk : Nat → Bool) (e : Exec) (x : Nat)
    (h : StoreInv e.cur) :
    StoreInv (sweepStep fetchOk dmOk e x).cur ∧
    (sweepStep fetchOk dmOk e x).commits = e.commits ∧
    (sweepStep fetchOk dmOk e x).committed = e.committed := by
  unfold sweepStep
  by_cases h3 : e.err.isSome = true
  · rw [if_pos h3]
    exact ⟨h, rfl, rfl⟩
  · rw [if_neg h3]
    cases hfx : fetchOk x with
    | false =>
      simp only [Bool.false_eq_true, if_false]
      rw [if_neg h3]
      exact ⟨StoreInv_setNone _ x h, rfl, rfl⟩
    | true =>
      rw [if_pos rfl]
      cases hdx : dmOk x with
      | false =>
        simp only [Bool.false_eq_true, if_false]
        rw [if_pos (by simp)]
        exact ⟨h, rfl, rfl⟩
      | true =>
        rw [if_pos rfl]
        rw [if_neg (by simpa using h3)]
        exact ⟨StoreInv_setNone _ x h, rfl, rfl⟩

theorem sweepFold_keep (fetchOk dmOk : Nat → Bool) :
    ∀ (ms : List Nat) (e : Exec), StoreInv e.cur →
      StoreInv (ms.foldl (sweepStep fetchOk dmOk) e).cur ∧
      (ms.foldl (sweepStep fetchOk dmOk) e).commits = e.commits ∧
      (ms.foldl (sweepStep fetchOk dmOk) e).committed = e.committed
  | [], _, h => ⟨h, rfl, rfl⟩
  | x :: rest, e, h => by
    have h1 := sweepStep_keep fetchOk dmOk e x h
    have h2 := sweepFold_keep fetchOk dmOk rest (sweepStep fetchOk dmOk e x) h1.1
    exact ⟨h2.1, h2.2.1.trans h1.2.1, h2.2.2.trans h1.2.2⟩

theorem sweepGame_keep (fetchOk dmOk : Nat → Bool) (gid : Nat) (e : Exec)
    (h : StoreInv e.cur) :
    StoreInv (sweepGame fetchOk dmOk gid e).cur ∧
    (sweepGame fetchOk dmOk gid e).commits = e.commits ∧
    (sweepGame fetchOk dmOk gid e).committed = e.committed := by
  unfold sweepGame
  by_cases he : e.err.isSome = true
  · rw [if_pos he]
    exact ⟨h, rfl, rfl⟩
  · rw [if_neg he]
    simp only []
    have hF := sweepFold_keep fetchOk dmOk
      ((membersOf (e.act (.attemptDeleteMessage gid)).cur gid).map (fun u => u.xid))
      (e.act (.attemptDeleteMessage gid)) h
    refine ⟨?_, ?_, ?_⟩
    · split
      · exact hF.1
      · exact StoreInv_deleteGame _ gid hF.1
    · split
      · exact hF.2.1
      · exact hF.2.1
    · split
      · exact hF.2.2
      · exact hF.2.2

theorem sweepGameFold_keep (fetchOk dmOk : Nat → Bool) :
    ∀ (ids : List Nat) (e : Exec), StoreInv e.cur →
      StoreInv (ids.foldl (fun e gid => sweepGame fetchOk dmOk gid e) e).cur ∧
      (ids.foldl (fun e gid => sweepGame fetchOk dmOk gid e) e).commits = e.commits ∧
      (ids.foldl (fun e gid => sweepGame fetchOk dmOk gid e) e).committed = e.committed
  | [], _, h => ⟨h, rfl, rfl⟩
  | gid :: rest, e, h => by
    have h1 := sweepGame_keep fetchOk dmOk gid e h
    have h2 := sweepGameFold_keep fetchOk dmOk rest (sweepGame fetchOk dmOk gid e) h1.1
    exact ⟨h2.1, h2.2.1.trans h1.2.1, h2.2.2.trans h1.2.2⟩

theorem sweep_preserves (now : Int) (fetchOk dmOk : Nat → Bool) (st : Store)
    (h : StoreInv st) :
    StoreInv (cleanupExpiredGames now fetchOk dmOk st).committed ∧
    ∀ c ∈ (cleanupExpiredGames now fetchOk dmOk st).commits, Weak c := by
  unfold cleanupExpiredGames
  simp only []
  have hF := sweepGameFold_keep fetchOk dmOk ((expiredGames st now).map (fun g => g.id))
    (Exec.start st) h
  refine ⟨?_, ?_⟩
  · split
    · rw [hF.2.2]
      exact h
    · exact hF.1
  · split
    · intro c hc
      rw [hF.2.1] at hc
      simp at hc
    · intro c hc
      simp only [commit_commits] at hc
      rcases List.mem_append.mp hc with h1 | h1
      · rw [hF.2.1] at h1
        simp at h1
      · simp only [List.mem_singleton] at h1
        subst h1
        exact hF.1.weak

/-! Helpers for lfg preservation: the mention pre-scan and invite DMs never
commit, and the freshly created game's member count is bounded by
`1 + mentions.length < size`. -/

theorem mentionEnsure_keep (chanOk : Bool) :
    ∀ (l : List Nat) (e : Exec),
      (mentionEnsure chanOk l e).1.commits = e.commits ∧
      (mentionEnsure chanOk l e).1.committed = e.committed ∧
      (StoreInv e.cur → StoreInv (mentionEnsure chanOk l e).1.cur)
  | [], _ => ⟨rfl, rfl, fun h => h⟩
  | x :: rest, e => by
    simp only [mentionEnsure]
    by_cases hw : userWaiting (e.upd (fun s => ensureUserExists s x)).cur
        (getUser (e.upd (fun s => ensureUserExists s x)).cur x) = true
    · rw [if_pos hw]
      cases chanOk with
      | false =>
        simp only [Bool.false_eq_true, if_false]
        exact ⟨rfl, rfl, fun h => StoreInv_ensureUser _ x h⟩
      | true =>
        rw [if_pos rfl]
        exact ⟨rfl, rfl, fun h => StoreInv_ensureUser _ x h⟩
    · rw [if_neg hw]
      have hrec := mentionEnsure_keep chanOk rest (e.upd (fun s => ensureUserExists s x))
      exact ⟨hrec.1, hrec.2.1, fun h => hrec.2.2 (StoreInv_ensureUser _ x h)⟩

theorem dmFold_keep (dmOk : Nat → Bool) :
    ∀ (xs : List Nat) (e : Exec),
      (xs.foldl (fun e x => if e.err.isSome then e
          else if dmOk x then e.act (.dm x "lfg_invited") else e.fail .discordError) e).commits
        = e.commits ∧
      (xs.foldl (fun e x => if e.err.isSome then e
          else if dmOk x then e.act (.dm x "lfg_invited") else e.fail .discordError) e).committed
        = e.committed
  | [], _ => ⟨rfl, rfl⟩
  | x :: rest, e => by
    have hs : ((if e.err.isSome then e
        else if dmOk x then e.act (.dm x "lfg_invited") else e.fail .discordError)).commits
          = e.commits ∧
        ((if e.err.isSome then e
        else if dmOk x then e.act (.dm x "lfg_invited") else e.fail .discordError)).committed
          = e.committed := by
      split
      · exact ⟨rfl, rfl⟩
      · split
        · exact ⟨rfl, rfl⟩
        · exact ⟨rfl, rfl⟩
    have h2 := dmFold_keep dmOk rest (if e.err.isSome then e
        else if dmOk x then e.act (.dm x "lfg_invited") else e.fail .discordError)
    exact ⟨h2.1.trans hs.1, h2.2.trans hs.2⟩

theorem dmInvites_keep (dmOk : Nat → Bool) (xs : List Nat) (e : Exec) :
    (dmInvites dmOk xs e).commits = e.commits ∧
    (dmInvites dmOk xs e).committed = e.committed :=
  dmFold_keep dmOk xs e

theorem mentionFold_keep (gid : Nat) :
    ∀ (l : List Nat) (s : Store), xidsOk s →
      (l.foldl (fun t x => updateUser t x (fun u =>
          { u with game_id := some gid, invited := true, invite_confirmed := false })) s).games
        = s.games ∧
      (l.foldl (fun t x => updateUser t x (fun u =>
          { u with game_id := some gid, invited := true, invite_confirmed := false })) s).nextGameId
        = s.nextGameId ∧
      (l.foldl (fun t x => updateUser t x (fun u =>
          { u with game_id := some gid, invited := true, invite_confirmed := false })) s).users.map
          User.xid
        = s.users.map User.xid ∧
      (∀ k, k ≠ gid →
        memberCount (l.foldl (fun t x => updateUser t x (fun u =>
          { u with game_id := some gid, invited := true, invite_confirmed := false })) s) k
          ≤ memberCount s k) ∧
      memberCount (l.foldl (fun t x => updateUser t x (fun u =>
          { u with game_id := some gid, invited := true, invite_confirmed := false })) s) gid
        ≤ memberCount s gid + l.length ∧
      (refsLt s → gid < s.nextGameId →
        refsLt (l.foldl (fun t x => updateUser t x (fun u =>
          { u with game_id := some gid, invited := true, invite_confirmed := false })) s))
  | [], s, _ =>
    ⟨rfl, rfl, rfl, fun _ _ => le_refl _, Nat.le_add_right _ _, fun hr _ => hr⟩
  | x :: l, s, hx => by
    have hmap : (updateUser s x (fun u =>
        { u with game_id := some gid, invited := true, invite_confirmed := false })).users.map
        User.xid = s.users.map User.xid :=
      map_xid_updateUser s x _ (fun _ => rfl)
    have hx1 : xidsOk (updateUser s x (fun u =>
        { u with game_id := some gid, invited := true, invite_confirmed := false })) := by
      unfold xidsOk
      rw [hmap]
      exact hx
    have IH := mentionFold_keep gid l (updateUser s x (fun u =>
        { u with game_id := some gid, invited := true, invite_confirmed := false })) hx1
    have hne : ∀ k, k ≠ gid →
        memberCount (updateUser s x (fun u =>
          { u with game_id := some gid, invited := true, invite_confirmed := false })) k
          ≤ memberCount s k := by
      intro k hk
      apply memberCount_updateUser_ne
      intro w
      show some gid ≠ some k
      simp only [ne_eq, Option.some.injEq]
      exact fun hh => hk hh.symm
    have hsucc : memberCount (updateUser s x (fun u =>
        { u with game_id := some gid, invited := true, invite_confirmed := false })) gid
        ≤ memberCount s gid + 1 :=
      memberCount_updateUser_succ s x _ gid hx
    refine ⟨IH.1, IH.2.1, IH.2.2.1.trans hmap, ?_, ?_, ?_⟩
    · intro k hk
      exact (IH.2.2.2.1 k hk).trans (hne k hk)
    · simp only [List.foldl_cons, List.length_cons]
      have h1 := IH.2.2.2.2.1
      omega
    · intro hr hlt
      refine IH.2.2.2.2.2 ?_ hlt
      apply refsLt_updateUser s x _ hr
      intro w _ g' hg'
      have : some gid = some g' := hg'
      simp only [Option.some.injEq] at this
      subst this
      exact hlt

theorem StoreInv_newGame (s : Store) (authorX guildX chanX : Nat) (mentions : List Nat)
    (nowE expiresE size : Int) (title : String)
    (h : StoreInv s) (hsz : 1 < size) (hml : (mentions.length : Int) + 1 < size) :
    StoreInv (mentions.foldl (fun t x => updateUser t x (fun u => { u with game_id := some s.nextGameId, invited := true, invite_confirmed := false })) (updateUser { s with games := s.games ++ [({ id := s.nextGameId, created_at := nowE, updated_at := some nowE, expires_at := some expiresE, size := size, guild_xid := guildX, channel_xid := some chanX, title := title, status := "pending", message_xid := none } : Game)], nextGameId := s.nextGameId + 1 } authorX (fun u => { u with invited := false, game_id := some s.nextGameId }))) := by
  obtain ⟨h1, h2, h3, h4, h5⟩ := h
  have hx6 : xidsOk { s with games := s.games ++ [({ id := s.nextGameId, created_at := nowE, updated_at := some nowE, expires_at := some expiresE, size := size, guild_xid := guildX, channel_xid := some chanX, title := title, status := "pending", message_xid := none } : Game)], nextGameId := s.nextGameId + 1 } := h1
  have hgo6 : gidsOk { s with games := s.games ++ [({ id := s.nextGameId, created_at := nowE, updated_at := some nowE, expires_at := some expiresE, size := size, guild_xid := guildX, channel_xid := some chanX, title := title, status := "pending", message_xid := none } : Game)], nextGameId := s.nextGameId + 1 } := by
    show ((s.games ++ [({ id := s.nextGameId, created_at := nowE, updated_at := some nowE, expires_at := some expiresE, size := size, guild_xid := guildX, channel_xid := some chanX, title := title, status := "pending", message_xid := none } : Game)]).map Game.id).Nodup
    rw [List.map_append, List.nodup_append]
    refine ⟨h2, List.nodup_singleton _, ?_⟩
    intro a ha hb
    simp only [List.map_cons, List.map_nil, List.mem_singleton] at hb
    have hb2 : a = s.nextGameId := hb
    obtain ⟨g, hg, hgid2⟩ := List.mem_map.mp ha
    have hlt := h3 g hg
    omega
  have hgl6 : gidsLt { s with games := s.games ++ [({ id := s.nextGameId, created_at := nowE, updated_at := some nowE, expires_at := some expiresE, size := size, guild_xid := guildX, channel_xid := some chanX, title := title, status := "pending", message_xid := none } : Game)], nextGameId := s.nextGameId + 1 } := by
    intro g hg
    rcases List.mem_append.mp hg with hold | hnew2
    · have := h3 g hold
      show g.id < s.nextGameId + 1
      omega
    · simp only [List.mem_singleton] at hnew2
      subst hnew2
      show s.nextGameId < s.nextGameId + 1
      omega
  have hr6 : refsLt { s with games := s.games ++ [({ id := s.nextGameId, created_at := nowE, updated_at := some nowE, expires_at := some expiresE, size := size, guild_xid := guildX, channel_xid := some chanX, title := title, status := "pending", message_xid := none } : Game)], nextGameId := s.nextGameId + 1 } := by
    intro u hu g' hg'
    have := h4 u hu g' hg'
    show g' < s.nextGameId + 1
    omega
  have h06 : memberCount { s with games := s.games ++ [({ id := s.nextGameId, created_at := nowE, updated_at := some nowE, expires_at := some expiresE, size := size, guild_xid := guildX, channel_xid := some chanX, title := title, status := "pending", message_xid := none } : Game)], nextGameId := s.nextGameId + 1 } s.nextGameId = 0 := memberCount_next_zero s h4
  have hco6 : countsOk { s with games := s.games ++ [({ id := s.nextGameId, created_at := nowE, updated_at := some nowE, expires_at := some expiresE, size := size, guild_xid := guildX, channel_xid := some chanX, title := title, status := "pending", message_xid := none } : Game)], nextGameId := s.nextGameId + 1 } := by
    intro g hg
    rcases List.mem_append.mp hg with hold | hnew2
    · exact h5 g hold
    · simp only [List.mem_singleton] at hnew2
      subst hnew2
      constructor
      · show (↑(memberCount { s with games := s.games ++ [({ id := s.nextGameId, created_at := nowE, updated_at := some nowE, expires_at := some expiresE, size := size, guild_xid := guildX, channel_xid := some chanX, title := title, status := "pending", message_xid := none } : Game)], nextGameId := s.nextGameId + 1 } s.nextGameId) : Int) ≤ size
        rw [h06]
        simp only [Nat.cast_zero]
        omega
      · intro hp
        show (↑(memberCount { s with games := s.games ++ [({ id := s.nextGameId, created_at := nowE, updated_at := some nowE, expires_at := some expiresE, size := size, guild_xid := guildX, channel_xid := some chanX, title := title, status := "pending", message_xid := none } : Game)], nextGameId := s.nextGameId + 1 } s.nextGameId) : Int) < size
        rw [h06]
        simp only [Nat.cast_zero]
        omega
  have hx7 : xidsOk (updateUser { s with games := s.games ++ [({ id := s.nextGameId, created_at := nowE, updated_at := some nowE, expires_at := some expiresE, size := size, guild_xid := guildX, channel_xid := some chanX, title := title, status := "pending", message_xid := none } : Game)], nextGameId := s.nextGameId + 1 } authorX (fun u => { u with invited := false, game_id := some s.nextGameId })) := xidsOk_updateUser _ authorX (fun u => { u with invited := false, game_id := some s.nextGameId }) (fun _ => rfl) hx6
  have hgo7 : gidsOk (updateUser { s with games := s.games ++ [({ id := s.nextGameId, created_at := nowE, updated_at := some nowE, expires_at := some expiresE, size := size, guild_xid := guildX, channel_xid := some chanX, title := title, status := "pending", message_xid := none } : Game)], nextGameId := s.nextGameId + 1 } authorX (fun u => { u with invited := false, game_id := some s.nextGameId })) := hgo6
  have hgl7 : gidsLt (updateUser { s with games := s.games ++ [({ id := s.nextGameId, created_at := nowE, updated_at := some nowE, expires_at := some expiresE, size := size, guild_xid := guildX, channel_xid := some chanX, title := title, status := "pending", message_xid := none } : Game)], nextGameId := s.nextGameId + 1 } authorX (fun u => { u with invited := false, game_id := some s.nextGameId })) := fun g hg => hgl6 g hg
  have hr7 : refsLt (updateUser { s with games := s.games ++ [({ id := s.nextGameId, created_at := nowE, updated_at := some nowE, expires_at := some expiresE, size := size, guild_xid := guildX, channel_xid := some chanX, title := title, status := "pending", message_xid := none } : Game)], nextGameId := s.nextGameId + 1 } authorX (fun u => { u with invited := false, game_id := some s.nextGameId })) := by
    apply refsLt_updateUser _ authorX _ hr6
    intro w _ g' hg'
    have hgg : some s.nextGameId = some g' := hg'
    simp only [Option.some.injEq] at hgg
    subst hgg
    show s.nextGameId < s.nextGameId + 1
    omega
  have hc7 : memberCount (updateUser { s with games := s.games ++ [({ id := s.nextGameId, created_at := nowE, updated_at := some nowE, expires_at := some expiresE, size := size, guild_xid := guildX, channel_xid := some chanX, title := title, status := "pending", message_xid := none } : Game)], nextGameId := s.nextGameId + 1 } authorX (fun u => { u with invited := false, game_id := some s.nextGameId })) s.nextGameId ≤ 1 := by
    have hs1 := memberCount_updateUser_succ { s with games := s.games ++ [({ id := s.nextGameId, created_at := nowE, updated_at := some nowE, expires_at := some expiresE, size := size, guild_xid := guildX, channel_xid := some chanX, title := title, status := "pending", message_xid := none } : Game)], nextGameId := s.nextGameId + 1 } authorX (fun u => { u with invited := false, game_id := some s.nextGameId }) s.nextGameId hx6
    omega
  have hco7 : countsOk (updateUser { s with games := s.games ++ [({ id := s.nextGameId, created_at := nowE, updated_at := some nowE, expires_at := some expiresE, size := size, guild_xid := guildX, channel_xid := some chanX, title := title, status := "pending", message_xid := none } : Game)], nextGameId := s.nextGameId + 1 } authorX (fun u => { u with invited := false, game_id := some s.nextGameId })) := by
    intro g hg
    have hg6 : g ∈ s.games ++ [({ id := s.nextGameId, created_at := nowE, updated_at := some nowE, expires_at := some expiresE, size := size, guild_xid := guildX, channel_xid := some chanX, title := title, status := "pending", message_xid := none } : Game)] := hg
    rcases List.mem_append.mp hg6 with hold | hnew2
    · have hlt := h3 g hold
      have hne7 : memberCount (updateUser { s with games := s.games ++ [({ id := s.nextGameId, created_at := nowE, updated_at := some nowE, expires_at := some expiresE, size := size, guild_xid := guildX, channel_xid := some chanX, title := title, status := "pending", message_xid := none } : Game)], nextGameId := s.nextGameId + 1 } authorX (fun u => { u with invited := false, game_id := some s.nextGameId })) g.id ≤ memberCount { s with games := s.games ++ [({ id := s.nextGameId, created_at := nowE, updated_at := some nowE, expires_at := some expiresE, size := size, guild_xid := guildX, channel_xid := some chanX, title := title, status := "pending", message_xid := none } : Game)], nextGameId := s.nextGameId + 1 } g.id := by
        apply memberCount_updateUser_ne
        intro w
        show some s.nextGameId ≠ some g.id
        simp only [ne_eq, Option.some.injEq]
        omega
      have hb := h5 g hold
      have he6 : memberCount { s with games := s.games ++ [({ id := s.nextGameId, created_at := nowE, updated_at := some nowE, expires_at := some expiresE, size := size, guild_xid := guildX, channel_xid := some chanX, title := title, status := "pending", message_xid := none } : Game)], nextGameId := s.nextGameId + 1 } g.id = memberCount s g.id := rfl
      rw [he6] at hne7
      constructor
      · have := hb.1
        omega
      · intro hp
        have := hb.2 hp
        omega
    · simp only [List.mem_singleton] at hnew2
      have hid : g.id = s.nextGameId := by rw [hnew2]
      have hsz2 : g.size = size := by rw [hnew2]
      constructor
      · rw [hid, hsz2]
        omega
      · intro _
        rw [hid, hsz2]
        omega
  have hF := mentionFold_keep s.nextGameId mentions (updateUser { s with games := s.games ++ [({ id := s.nextGameId, created_at := nowE, updated_at := some nowE, expires_at := some expiresE, size := size, guild_xid := guildX, channel_xid := some chanX, title := title, status := "pending", message_xid := none } : Game)], nextGameId := s.nextGameId + 1 } authorX (fun u => { u with invited := false, game_id := some s.nextGameId })) hx7
  refine ⟨?_, ?_, ?_, ?_, ?_⟩
  · unfold xidsOk
    rw [hF.2.2.1]
    exact hx7
  · unfold gidsOk
    rw [hF.1]
    exact hgo7
  · intro g hg
    rw [hF.1] at hg
    rw [hF.2.1]
    exact hgl7 g hg
  · exact hF.2.2.2.2.2 hr7 (Nat.lt_succ_self s.nextGameId)
  · intro g hg
    rw [hF.1] at hg
    have hg6 : g ∈ s.games ++ [({ id := s.nextGameId, created_at := nowE, updated_at := some nowE, expires_at := some expiresE, size := size, guild_xid := guildX, channel_xid := some chanX, title := title, status := "pending", message_xid := none } : Game)] := hg
    rcases List.mem_append.mp hg6 with hold | hnew2
    · have hlt := h3 g hold
      have hne8 := hF.2.2.2.1 g.id (by omega)
      have hb7 := hco7 g hg
      constructor
      · have := hb7.1
        omega
      · intro hp
        have := hb7.2 hp
        omega
    · simp only [List.mem_singleton] at hnew2
      have hid : g.id = s.nextGameId := by rw [hnew2]
      have hsz2 : g.size = size := by rw [hnew2]
      have h8 := hF.2.2.2.2.1
      constructor
      · rw [hid, hsz2]
        omega
      · intro _
        rw [hid, hsz2]
        omega

theorem dmInvites_preserves (dmOk : Nat → Bool) (xs : List Nat) (e : Exec)
    (h1 : StoreInv e.committed) (h2 : ∀ c ∈ e.commits, Weak c) :
    StoreInv (dmInvites dmOk xs e).committed ∧
    ∀ c ∈ (dmInvites dmOk xs e).commits, Weak c := by
  have hk := dmInvites_keep dmOk xs e
  constructor
  · rw [hk.2]
    exact h1
  · intro c hc
    rw [hk.1] at hc
    exact h2 c hc

theorem lfg_preserves (authorX guildX chanX : Nat) (chanName : String) (params0 : List String)
    (mentions : List Nat) (now : Int) (newMsgId : Nat) (chanOk : Bool) (dmOk : Nat → Bool)
    (reactOk : Bool) (st : Store) (h : StoreInv st) :
    StoreInv (lfg authorX guildX chanX chanName params0 mentions now newMsgId
        chanOk dmOk reactOk st).committed ∧
    ∀ c ∈ (lfg authorX guildX chanX chanName params0 mentions now newMsgId
        chanOk dmOk reactOk st).commits, Weak c := by
  unfold lfg
  simp only [start_cur, upd_cur, commit_cur]
  have hS1 : StoreInv (ensureServerExists st guildX) := StoreInv_ensureServer st guildX h
  have hS2 : StoreInv (ensureServerExists (ensureServerExists st guildX) guildX) := StoreInv_ensureServer _ guildX hS1
  have hS3 : StoreInv (ensureUserExists (ensureServerExists (ensureServerExists st guildX) guildX) authorX) := StoreInv_ensureUser _ authorX hS2
  by_cases hba : botAllowedIn (getServer (ensureServerExists st guildX) guildX) chanName
  · rw [if_neg (by simp [hba])]
    by_cases hw : userWaiting (ensureUserExists (ensureServerExists (ensureServerExists st guildX) guildX) authorX) (getUser (ensureUserExists (ensureServerExists (ensureServerExists st guildX) guildX) authorX) authorX) = true
    · rw [if_pos hw]
      cases chanOk with
      | false =>
        simp only [Bool.false_eq_true, if_false]
        refine ⟨by simpa using hS2, ?_⟩
        intro c hc
        simp only [fail_commits, act_commits, commit_commits, upd_commits, start_commits,
          List.nil_append, upd_cur, start_cur, commit_cur] at hc
        rcases List.mem_append.mp hc with h1 | h1
        · simp only [List.mem_singleton] at h1
          subst h1
          exact hS1.weak
        · simp only [List.mem_singleton] at h1
          subst h1
          exact hS2.weak
      | true =>
        rw [if_pos rfl]
        refine ⟨by simpa using hS2, ?_⟩
        intro c hc
        simp only [fail_commits, act_commits, commit_commits, upd_commits, start_commits,
          List.nil_append, upd_cur, start_cur, commit_cur] at hc
        rcases List.mem_append.mp hc with h1 | h1
        · simp only [List.mem_singleton] at h1
          subst h1
          exact hS1.weak
        · simp only [List.mem_singleton] at h1
          subst h1
          exact hS2.weak
    · rw [if_neg hw]
      rcases hp0 : (params0.map lowerStr).get? 0 with _ | title
      · simp only []
        refine ⟨by simpa using hS2, ?_⟩
        intro c hc
        simp only [fail_commits, act_commits, commit_commits, upd_commits, start_commits,
          List.nil_append, upd_cur, start_cur, commit_cur] at hc
        rcases List.mem_append.mp hc with h1 | h1
        · simp only [List.mem_singleton] at h1
          subst h1
          exact hS1.weak
        · simp only [List.mem_singleton] at h1
          subst h1
          exact hS2.weak
      · simp only []
        rcases hp1 : (params0.map lowerStr).get? 1 with _ | szStr
        · simp only []
          refine ⟨by simpa using hS2, ?_⟩
          intro c hc
          simp only [fail_commits, act_commits, commit_commits, upd_commits, start_commits,
            List.nil_append, upd_cur, start_cur, commit_cur] at hc
          rcases List.mem_append.mp hc with h1 | h1
          · simp only [List.mem_singleton] at h1
            subst h1
            exact hS1.weak
          · simp only [List.mem_singleton] at h1
            subst h1
            exact hS2.weak
        · simp only []
          rcases hpi : pyInt szStr with pe | size
          · simp only []
            refine ⟨by simpa using hS2, ?_⟩
            intro c hc
            simp only [fail_commits, act_commits, commit_commits, upd_commits, start_commits,
              List.nil_append, upd_cur, start_cur, commit_cur] at hc
            rcases List.mem_append.mp hc with h1 | h1
            · simp only [List.mem_singleton] at h1
              subst h1
              exact hS1.weak
            · simp only [List.mem_singleton] at h1
              subst h1
              exact hS2.weak
          · simp only []
            by_cases hsb : size = 0 ∨ ¬ (1 < size)
            · rw [if_pos hsb]
              cases chanOk with
              | false =>
                simp only [Bool.false_eq_true, if_false]
                refine ⟨by simpa using hS2, ?_⟩
                intro c hc
                simp only [fail_commits, act_commits, commit_commits, upd_commits, start_commits,
                  List.nil_append, upd_cur, start_cur, commit_cur] at hc
                rcases List.mem_append.mp hc with h1 | h1
                · simp only [List.mem_singleton] at h1
                  subst h1
                  exact hS1.weak
                · simp only [List.mem_singleton] at h1
                  subst h1
                  exact hS2.weak
              | true =>
                rw [if_pos rfl]
                refine ⟨by simpa using hS2, ?_⟩
                intro c hc
                simp only [fail_commits, act_commits, commit_commits, upd_commits, start_commits,
                  List.nil_append, upd_cur, start_cur, commit_cur] at hc
                rcases List.mem_append.mp hc with h1 | h1
                · simp only [List.mem_singleton] at h1
                  subst h1
                  exact hS1.weak
                · simp only [List.mem_singleton] at h1
                  subst h1
                  exact hS2.weak
            · rw [if_neg hsb]
              have hsz : (1 : Int) < size := by
                by_contra hc
                exact hsb (Or.inr hc)
              by_cases hmg : (mentions.length : Int) + 1 ≥ size
              · rw [if_pos hmg]
                cases chanOk with
                | false =>
                  simp only [Bool.false_eq_true, if_false]
                  refine ⟨by simpa using hS2, ?_⟩
                  intro c hc
                  simp only [fail_commits, act_commits, commit_commits, upd_commits, start_commits,
                    List.nil_append, upd_cur, start_cur, commit_cur] at hc
                  rcases List.mem_append.mp hc with h1 | h1
                  · simp only [List.mem_singleton] at h1
                    subst h1
                    exact hS1.weak
                  · simp only [List.mem_singleton] at h1
                    subst h1
                    exact hS2.weak
                | true =>
                  rw [if_pos rfl]
                  refine ⟨by simpa using hS2, ?_⟩
                  intro c hc
                  simp only [fail_commits, act_commits, commit_commits, upd_commits, start_commits,
                    List.nil_append, upd_cur, start_cur, commit_cur] at hc
                  rcases List.mem_append.mp hc with h1 | h1
                  · simp only [List.mem_singleton] at h1
                    subst h1
                    exact hS1.weak
                  · simp only [List.mem_singleton] at h1
                    subst h1
                    exact hS2.weak
              · rw [if_neg hmg]
                have hml : (mentions.length : Int) + 1 < size := by omega
                have hK := mentionEnsure_keep chanOk mentions ((((Exec.start st).upd (fun s => ensureServerExists s guildX)).commit.upd (fun s => ensureServerExists s guildX)).commit.upd (fun s => ensureUserExists s authorX))
                rcases hme : mentionEnsure chanOk mentions ((((Exec.start st).upd (fun s => ensureServerExists s guildX)).commit.upd (fun s => ensureServerExists s guildX)).commit.upd (fun s => ensureUserExists s authorX)) with ⟨e4, flag⟩
                rw [hme] at hK
                simp only [] at hK
                have hS4 : StoreInv e4.cur := hK.2.2 hS3
                have hc4 : ∀ c ∈ e4.commits, Weak c := by
                  intro c hc
                  rw [hK.1] at hc
                  simp only [commit_commits, upd_commits, start_commits, List.nil_append,
                    upd_cur, start_cur, commit_cur] at hc
                  rcases List.mem_append.mp hc with h1 | h1
                  · simp only [List.mem_singleton] at h1
                    subst h1
                    exact hS1.weak
                  · simp only [List.mem_singleton] at h1
                    subst h1
                    exact hS2.weak
                have hcm4 : StoreInv e4.committed := by
                  rw [hK.2.1]
                  simpa using hS2
                cases flag with
                | true =>
                  simp only []
                  exact ⟨hcm4, hc4⟩
                | false =>
                  simp only []
                  have hS8 := StoreInv_newGame e4.cur authorX guildX chanX mentions now
                    (now + (getServer (ensureServerExists (ensureServerExists st guildX) guildX) guildX).expire) size title hS4 hsz hml
                  by_cases hmt : mentions.isEmpty = true
                  · rw [if_pos hmt, if_pos hmt]
                    cases chanOk with
                    | false =>
                      rw [if_pos (by simp)]
                      refine ⟨?_, ?_⟩
                      · simp only [fail_committed, commit_committed, upd_cur, commit_cur,
                          act_cur]
                        exact hS8
                      · intro c hc
                        simp only [fail_commits, commit_commits, upd_commits, act_commits,
                          upd_cur, commit_cur, act_cur] at hc
                        rcases List.mem_append.mp hc with h1 | h1
                        · exact hc4 c h1
                        · simp only [List.mem_singleton] at h1
                          subst h1
                          exact hS8.weak
                    | true =>
                      rw [if_neg (by simp)]
                      have hS11 := StoreInv_setMsg _ e4.cur.nextGameId newMsgId hS8
                      cases reactOk with
                      | false =>
                        rw [if_neg (by simp)]
                        refine ⟨?_, ?_⟩
                        · simp only [fail_committed, commit_committed, act_committed,
                            upd_committed, upd_cur, commit_cur, act_cur]
                          exact hS11
                        · intro c hc
                          simp only [fail_commits, commit_commits, upd_commits, act_commits,
                            upd_cur, commit_cur, act_cur] at hc
                          rcases List.mem_append.mp hc with h1 | h1
                          · rcases List.mem_append.mp h1 with h2 | h2
                            · exact hc4 c h2
                            · simp only [List.mem_singleton] at h2
                              subst h2
                              exact hS8.weak
                          · simp only [List.mem_singleton] at h1
                            subst h1
                            exact hS11.weak
                      | true =>
                        rw [if_pos rfl]
                        refine ⟨?_, ?_⟩
                        · simp only [fail_committed, commit_committed, act_committed,
                            upd_committed, upd_cur, commit_cur, act_cur]
                          exact hS11
                        · intro c hc
                          simp only [fail_commits, commit_commits, upd_commits, act_commits,
                            upd_cur, commit_cur, act_cur] at hc
                          rcases List.mem_append.mp hc with h1 | h1
                          · rcases List.mem_append.mp h1 with h2 | h2
                            · exact hc4 c h2
                            · simp only [List.mem_singleton] at h2
                              subst h2
                              exact hS8.weak
                          · simp only [List.mem_singleton] at h1
                            subst h1
                            exact hS11.weak
                  · rw [if_neg hmt, if_neg hmt]
                    apply dmInvites_preserves
                    · simp only [commit_committed, upd_cur, commit_cur, act_cur]
                      exact hS8
                    · intro c hc
                      simp only [commit_commits, upd_commits, upd_cur, commit_cur,
                        act_cur] at hc
                      rcases List.mem_append.mp hc with h1 | h1
                      · rcases List.mem_append.mp h1 with h2 | h2
                        · exact hc4 c h2
                        · simp only [List.mem_singleton] at h2
                          subst h2
                          exact hS4.weak
                      · simp only [List.mem_singleton] at h1
                        subst h1
                        exact hS8.weak
  · rw [if_pos (by simp [hba])]
    refine ⟨by simpa using hS1, ?_⟩
    intro c hc
    simp only [commit_commits, upd_commits, start_commits, List.nil_append,
      List.mem_singleton, upd_cur, start_cur] at hc
    subst hc
    exact hS1.weak

/-! The reachability induction for claim C1. -/

theorem runOp_preserves (op : Op) (s : Store) (h : StoreInv s) :
    StoreInv (runOp op s).committed ∧ ∀ c ∈ (runOp op s).commits, Weak c := by
  cases op with
  | reaction emoji guildX chanName messageX authorX now fetchOk dmOk =>
    exact reaction_preserves emoji guildX chanName messageX authorX now fetchOk dmOk s h
  | lfgCmd authorX guildX chanX chanName params mentions now newMsgId chanOk dmOk reactOk =>
    exact lfg_preserves authorX guildX chanX chanName params mentions now newMsgId
      chanOk dmOk reactOk s h
  | leaveCmd authorX chanOk =>
    exact leave_preserves authorX chanOk s h
  | invite authorX choice chanFound dmOk postOk reactOk newMsgId =>
    exact invite_preserves authorX choice chanFound dmOk postOk reactOk newMsgId s h
  | sweep now fetchOk dmOk =>
    exact sweep_preserves now fetchOk dmOk s h

theorem initStore_inv : StoreInv initStore := by
  refine ⟨by simp [xidsOk, initStore], by simp [gidsOk, initStore], ?_, ?_, ?_⟩
  · intro g hg
    simp [initStore] at hg
  · intro u hu
    simp [initStore] at hu
  · intro g hg
    simp [initStore] at hg

theorem reachable_inv (s : Store) (hr : Reachable s) : StoreInv s := by
  induction hr with
  | init => exact initStore_inv
  | step s op hprev ih => exact (runOp_preserves op s ih).1

/-- Claim C1: in every reachable committed state (end-of-handler states and
every commit snapshot a handler takes mid-run, starting from the empty store),
every game's member count — the number of user rows whose game reference points
to it — is at most the game's size; in particular a plus-reaction join on a
pending game never commits an overfull state. -/
theorem C1_committed_count_le_size (s' : Store) (h : CommittedState s') :
    ∀ g ∈ s'.games, (memberCount s' g.id : Int) ≤ g.size := by
  rcases h with hr | ⟨s, op, hr, hc⟩
  · exact (reachable_inv s' hr).weak
  · exact (runOp_preserves op s (reachable_inv s hr)).2 s' hc

def c1op : Op := .lfgCmd 1 9 7 "general" ["t", "2"] [] 100 500 true (fun _ => true) true

theorem C1_witness :
    CommittedState (runOp c1op initStore).committed ∧
    (memberCount (runOp c1op initStore).committed 0 : Int) ≤ 2 := by
  have hcs : CommittedState (runOp c1op initStore).committed :=
    Or.inl (Reachable.step initStore c1op Reachable.init)
  refine ⟨hcs, ?_⟩
  have hg : ({ id := 0, created_at := 100, updated_at := some 100, expires_at := some 130, size := 2, guild_xid := 9, channel_xid := some 7, title := "t", status := "pending", message_xid := some 500 } : Game) ∈ (runOp c1op initStore).committed.games := by decide
  exact C1_committed_count_le_size (runOp c1op initStore).committed hcs _ hg
